import Mathlib

/-!
# Cilo editor core: a shallow embedding of `src/main.c`

The editor keeps one global `struct editorConfig E`.  Every C function that reads or
writes `E` becomes a Lean function from the state before the call to the state after it.

Conventions of the embedding.

* A byte (`char`) is a `UInt8`.
* C `int` values (`cx`, `cy`, `rowoff`, the selection anchor, ...) are `Int`.  Row and
  document sizes are far below `2^31`, so no arithmetic here wraps.
* A row (`erow`) is the list of the bytes `chars[0 .. size)`; `size` is the length of that
  list.  Every function of the source that changes a row also moves or rewrites the
  terminating NUL at `chars[size]`, so the terminator is not stored.
* The document `E.row` is the list of its rows and `E.numrows` is the length of that list.
* A function that may index a row, the row array or a heap block outside its bounds returns
  an `Option`; `none` stands for that out-of-bounds access (undefined behaviour in C).
  The bounds of a row are `chars[0 .. size]`: the heap block of a row may be longer than
  `size + 1` bytes after a deletion, and an access behind the terminator that still falls
  inside the block is counted as out of bounds all the same.  Allocation is assumed to
  succeed.
-/

namespace Cilo

/-- The row type `erow` of the source: the bytes `chars[0 .. size)`. -/
abbrev erow := List UInt8

/-- The field `row->size`. -/
def rowSize (row : erow) : Int := (row.length : Int)

/-- The columns `[a, b)` of a row: the bytes `chars[a .. b)`. -/
def columns (row : erow) (a b : Int) : List UInt8 := (row.take b.toNat).drop a.toNat

/-- The global state `struct editorConfig` (the terminal settings, the file name and the
message time stamp are left out; `numrows` is the length of `row`). -/
structure editorConfig where
  cx : Int
  cy : Int
  rowoff : Int
  coloff : Int
  screenrows : Int
  screencols : Int
  row : List erow
  statusmsg : String
  highlight_query : Option (List UInt8)
  sel_start_x : Int
  sel_start_y : Int
  selecting : Bool
  clipboard : Option (List UInt8)
  deriving DecidableEq

/-- The field `E.numrows`. -/
def numrows (E : editorConfig) : Int := (E.row.length : Int)

/-- The access `E.row[i]`; `none` when `i` is outside `[0, numrows)`. -/
def rowAt (E : editorConfig) (i : Int) : Option erow :=
  if 0 ≤ i then E.row[i.toNat]? else none

/-- The state with `E.row[i]` overwritten (used after `rowAt E i` succeeded). -/
def setRow (E : editorConfig) (i : Int) (r : erow) : editorConfig :=
  { E with row := E.row.set i.toNat r }

/-- The function `editorSetStatusMessage` for a constant message. -/
def editorSetStatusMessage (msg : String) (E : editorConfig) : editorConfig :=
  { E with statusmsg := msg }

/-! ## Editor operations -/

/-- The function `editorInsertRow(at, s, len)`; `s` holds the `len` bytes to copy. -/
def editorInsertRow (at_ : Int) (s : List UInt8) (E : editorConfig) : editorConfig :=
  if at_ < 0 ∨ at_ > numrows E then E
  else { E with row := E.row.take at_.toNat ++ s :: E.row.drop at_.toNat }

/-- The function `editorInsertNewline`. -/
def editorInsertNewline (E : editorConfig) : Option editorConfig :=
  if E.cy ≥ numrows E then
    some { editorInsertRow (numrows E) [] E with cy := E.cy + 1, cx := 0 }
  else
    match rowAt E E.cy with
    | none => none
    | some row =>
      if E.cx = 0 then
        some { editorInsertRow E.cy [] E with cy := E.cy + 1, cx := 0 }
      else if E.cx ≥ rowSize row then
        some { editorInsertRow (E.cy + 1) [] E with cy := E.cy + 1, cx := 0 }
      else if E.cx < 0 then none
      else
        let E1 := editorInsertRow (E.cy + 1) (row.drop E.cx.toNat) E
        some { setRow E1 E.cy (row.take E.cx.toNat) with cy := E.cy + 1, cx := 0 }

/-- The function `editorInsertChar(c)`; the argument is the byte stored in the row. -/
def editorInsertChar (c : UInt8) (E : editorConfig) : Option editorConfig :=
  let E1 := if E.cy = numrows E then editorInsertRow (numrows E) [] E else E
  match rowAt E1 E.cy with
  | none => none
  | some row =>
    if E.cx < 0 ∨ E.cx > rowSize row then none
    else
      some { setRow E1 E.cy (row.take E.cx.toNat ++ c :: row.drop E.cx.toNat) with
             cx := E.cx + 1 }

/-- The function `editorRowDelChar(row, at)`. -/
def editorRowDelChar (row : erow) (at_ : Int) : erow :=
  if at_ < 0 ∨ at_ ≥ rowSize row then row
  else row.take at_.toNat ++ row.drop (at_.toNat + 1)

/-- The function `editorDelRow(at)`. -/
def editorDelRow (at_ : Int) (E : editorConfig) : editorConfig :=
  if at_ < 0 ∨ at_ ≥ numrows E then E
  else { E with row := E.row.take at_.toNat ++ E.row.drop (at_.toNat + 1) }

/-- The function `editorRowAppendString(row, s, len)`; `s` holds the `len` bytes. -/
def editorRowAppendString (row : erow) (s : List UInt8) : erow := row ++ s

/-- The function `editorDelChar` (backspace). -/
def editorDelChar (E : editorConfig) : Option editorConfig :=
  if E.cy = numrows E then some E
  else if E.cx = 0 ∧ E.cy = 0 then some E
  else
    match rowAt E E.cy with
    | none => none
    | some row =>
      if E.cx > 0 then
        some { setRow E E.cy (editorRowDelChar row (E.cx - 1)) with cx := E.cx - 1 }
      else
        match rowAt E (E.cy - 1) with
        | none => none
        | some prev =>
          let E1 := { setRow E (E.cy - 1) (editorRowAppendString prev row) with
                      cx := rowSize prev }
          some { editorDelRow E.cy E1 with cy := E.cy - 1 }

/-- The `DEL_KEY` case of `editorProcessKeypress` (forward delete). -/
def keypressDelKey (E : editorConfig) : Option editorConfig :=
  if E.cy ≥ numrows E then some E
  else
    match rowAt E E.cy with
    | none => none
    | some row =>
      if E.cx < rowSize row then
        some (setRow E E.cy (editorRowDelChar row E.cx))
      else if E.cy < numrows E - 1 then
        match rowAt E (E.cy + 1) with
        | none => none
        | some next_row =>
          some (editorDelRow (E.cy + 1) (setRow E E.cy (editorRowAppendString row next_row)))
      else some E

/-- The Cursor invariant of the data model: `0 <= cy <= numrows`, `cx == 0` on the virtual
trailing line, and `0 <= cx <= row[cy].size` on an existing row. -/
def cursorInv (E : editorConfig) : Prop :=
  0 ≤ E.cy ∧ E.cy ≤ numrows E ∧ (E.cy = numrows E → E.cx = 0) ∧
  (E.cy < numrows E → 0 ≤ E.cx ∧ E.cx ≤ rowSize (E.row.getD E.cy.toNat []))

instance (E : editorConfig) : Decidable (cursorInv E) := by
  unfold cursorInv; infer_instance

/-! ## Selection and clipboard -/

/-- The append buffer `struct abuf`: the bytes `b[0 .. len)` of its heap block. -/
abbrev abuf := List UInt8

/-- The function `abAppend(ab, s, len)`: the block is reallocated to `ab->len + len` bytes
and the `len` bytes of `s` are copied behind the old contents. -/
def abAppend (ab : abuf) (s : List UInt8) : abuf := ab ++ s

/-- The normalisation block at the head of `editorGetSelection`, `editorDeleteSelection`
and `editorDrawRows`: the tuple `(start_y, start_x, end_y, end_x)`. -/
def selRange (E : editorConfig) : Int × Int × Int × Int :=
  if E.sel_start_y < E.cy ∨ (E.sel_start_y = E.cy ∧ E.sel_start_x ≤ E.cx) then
    (E.sel_start_y, E.sel_start_x, E.cy, E.cx)
  else
    (E.cy, E.cx, E.sel_start_y, E.sel_start_x)

/-- The loop `for (i = start_y + 1; i < end_y; i++)` of `editorGetSelection`, started at
row `i` with `n` iterations left. -/
def selInterior (E : editorConfig) : Int → Nat → abuf → Option abuf
  | _, 0, ab => some ab
  | i, n + 1, ab =>
    match rowAt E i with
    | none => none
    | some row => selInterior E (i + 1) n (abAppend (abAppend ab row) [10])

/-- The function `editorGetSelection`.  The outer `Option` is `none` on an out-of-bounds
access; the inner one is the returned pointer, `none` for `NULL` and otherwise the contents
of the returned heap block (exactly `ab.len` bytes). -/
def editorGetSelection (E : editorConfig) : Option (Option (List UInt8)) :=
  if !E.selecting then some none
  else
    let (start_y, start_x, end_y, end_x) := selRange E
    if start_y < 0 ∨ end_y ≥ numrows E then some none
    else if start_y = end_y then
      match rowAt E start_y with
      | none => none
      | some row =>
        if start_x ≥ rowSize row ∨ start_x ≥ end_x then some none
        else
          let len := end_x - start_x
          let len := if len > rowSize row - start_x then rowSize row - start_x else len
          if start_x < 0 then none
          else some (some (abAppend [] ((row.drop start_x.toNat).take len.toNat)))
    else
      match rowAt E start_y, rowAt E end_y with
      | some row, some last =>
        let len := rowSize row - start_x
        if len > 0 ∧ start_x < 0 then none
        else
          let ab := if len > 0 then abAppend [] (row.drop start_x.toNat) else []
          let ab := abAppend ab [10]
          match selInterior E (start_y + 1) (end_y - (start_y + 1)).toNat ab with
          | none => none
          | some ab =>
            if end_x > 0 then
              let end_x := if end_x > rowSize last then rowSize last else end_x
              some (some (abAppend ab (last.take end_x.toNat)))
            else some (some ab)
      | _, _ => none

/-- The loop `for (i = start_y + 1; i <= end_y; i++) editorDelRow(start_y + 1)` of
`editorDeleteSelection`, with `n` iterations left. -/
def delRowLoop (at_ : Int) : Nat → editorConfig → editorConfig
  | 0, E => E
  | n + 1, E => delRowLoop at_ n (editorDelRow at_ E)

/-- The function `editorDeleteSelection`; `none` when a column of the range lies outside
`chars[0 .. size]` of its row. -/
def editorDeleteSelection (E : editorConfig) : Option editorConfig :=
  if !E.selecting then some E
  else
    let (start_y, start_x, end_y, end_x) := selRange E
    if start_y < 0 ∨ end_y ≥ numrows E then some E
    else if start_y = end_y then
      match rowAt E start_y with
      | none => none
      | some row =>
        if start_x ≥ rowSize row ∨ start_x ≥ end_x then some E
        else
          let len := end_x - start_x
          let len := if len > rowSize row - start_x then rowSize row - start_x else len
          if start_x < 0 then none
          else
            some { setRow E start_y
                     (row.take start_x.toNat ++ row.drop (start_x + len).toNat) with
                   cy := start_y, cx := start_x, selecting := false }
    else
      match rowAt E start_y, rowAt E end_y with
      | some first_row, some last_row =>
        if start_x < 0 ∨ start_x > rowSize first_row then none
        else if end_x < 0 ∨ end_x > rowSize last_row then none
        else
          let E1 := setRow E start_y
            (editorRowAppendString (first_row.take start_x.toNat) (last_row.drop end_x.toNat))
          let E2 := delRowLoop (start_y + 1) (end_y + 1 - (start_y + 1)).toNat E1
          some { E2 with cy := start_y, cx := start_x, selecting := false }
      | _, _ => none

/-- The library call `strdup(row->chars)`: the bytes before the first NUL, then a NUL. -/
def strdup (chars : List UInt8) : List UInt8 := chars.takeWhile (fun c => c != 0) ++ [0]

/-- The `CTRL_KEY('c')` case of `editorProcessKeypress` (copy). -/
def keypressCopy (E : editorConfig) : Option editorConfig :=
  if E.selecting then
    match editorGetSelection E with
    | none => none
    | some sel =>
      some (editorSetStatusMessage "Copied selection to clipboard"
        { E with clipboard := sel, selecting := false })
  else if E.cy < numrows E then
    match rowAt E E.cy with
    | none => none
    | some row =>
      some (editorSetStatusMessage "Copied line to clipboard"
        { E with clipboard := some (strdup row) })
  else some E

/-- The `CTRL_KEY('x')` case of `editorProcessKeypress` (cut). -/
def keypressCut (E : editorConfig) : Option editorConfig :=
  if E.selecting then
    match editorGetSelection E with
    | none => none
    | some sel =>
      (editorDeleteSelection { E with clipboard := sel }).map
        (editorSetStatusMessage "Cut selection to clipboard")
  else if E.cy < numrows E then
    match rowAt E E.cy with
    | none => none
    | some row =>
      some (editorSetStatusMessage "Cut line to clipboard"
        (editorDelRow E.cy { E with clipboard := some (strdup row) }))
  else some E

/-- The loop `while (*s) { ...; s++; }` of the paste case, with `s` pointing at the bytes
`block` that remain of the clipboard's heap block.  Reading `*s` behind the last byte of
the block is out of bounds. -/
def pasteLoop : List UInt8 → editorConfig → Option editorConfig
  | [], _ => none
  | c :: s, E =>
    if c = 0 then some E
    else if c = 10 ∨ c = 13 then (editorInsertNewline E).bind (pasteLoop s)
    else (editorInsertChar c E).bind (pasteLoop s)

/-- The `CTRL_KEY('v')` case of `editorProcessKeypress` (paste). -/
def keypressPaste (E : editorConfig) : Option editorConfig :=
  match (if E.selecting then editorDeleteSelection E else some E) with
  | none => none
  | some E1 =>
    match E1.clipboard with
    | none => some E1
    | some block => (pasteLoop block E1).map (editorSetStatusMessage "Pasted from clipboard")

/-! ## File input and output -/

/-- The second loop of `editorRowsToString`: every row followed by one newline byte. -/
def rowsToString : List erow → List UInt8
  | [] => []
  | row :: rest => row ++ 10 :: rowsToString rest

/-- The function `editorRowsToString`: the returned buffer (`*buflen` is its length). -/
def editorRowsToString (E : editorConfig) : List UInt8 := rowsToString E.row

/-- The successive results of `getline` on the bytes of a file: every line ends with its
newline delimiter, except a last line that the file does not terminate. -/
def getlines : List UInt8 → List (List UInt8)
  | [] => []
  | c :: fp =>
    if c = 10 then [c] :: getlines fp
    else
      match getlines fp with
      | [] => [[c]]
      | line :: lines => (c :: line) :: lines

/-- The inner loop of `editorOpen`: `linelen` is lowered past every trailing newline and
carriage return; the result is `line[0 .. linelen)`. -/
def stripEol (line : List UInt8) : List UInt8 :=
  line.rdropWhile (fun c => c == 10 || c == 13)

/-- The function `editorOpen`, given the bytes of the opened file: one row is appended for
every line that `getline` returns. -/
def editorOpen (file : List UInt8) (E : editorConfig) : editorConfig :=
  (getlines file).foldl (fun E line => { E with row := E.row ++ [stripEol line] }) E

/-- The function `initEditor`, given the window size reported by `getWindowSize`. -/
def initEditor (rows cols : Int) : editorConfig :=
  { cx := 0, cy := 0, rowoff := 0, coloff := 0, screenrows := rows - 2, screencols := cols,
    row := [], statusmsg := "", highlight_query := none,
    sel_start_x := -1, sel_start_y := -1, selecting := false, clipboard := none }

/-! ## Keys and cursor movement -/

/-- The key code `BACKSPACE`. -/
def BACKSPACE : Int := 127
/-- The key code `ARROW_LEFT`. -/
def ARROW_LEFT : Int := 1000
/-- The key code `ARROW_RIGHT`. -/
def ARROW_RIGHT : Int := 1001
/-- The key code `ARROW_UP`. -/
def ARROW_UP : Int := 1002
/-- The key code `ARROW_DOWN`. -/
def ARROW_DOWN : Int := 1003
/-- The key code `DEL_KEY`. -/
def DEL_KEY : Int := 1008
/-- The key `'\r'`. -/
def ENTER_KEY : Int := 13
/-- The key `'\x1b'`. -/
def ESC_KEY : Int := 27
/-- The key `CTRL_KEY('h')`. -/
def CTRL_H : Int := 8

/-- The function `editorMoveCursor(key)`. -/
def editorMoveCursor (key : Int) (E : editorConfig) : Option editorConfig :=
  match (if E.cy ≥ numrows E then some none else (rowAt E E.cy).map some) with
  | none => none
  | some row =>
    let E :=
      if key = ARROW_LEFT then (if E.cx ≠ 0 then { E with cx := E.cx - 1 } else E)
      else if key = ARROW_RIGHT then
        (match row with
         | some row => if E.cx < rowSize row then { E with cx := E.cx + 1 } else E
         | none => E)
      else if key = ARROW_UP then (if E.cy ≠ 0 then { E with cy := E.cy - 1 } else E)
      else if key = ARROW_DOWN then (if E.cy < numrows E then { E with cy := E.cy + 1 } else E)
      else E
    match (if E.cy ≥ numrows E then some none else (rowAt E E.cy).map some) with
    | none => none
    | some row =>
      let rowlen := match row with
        | some row => rowSize row
        | none => 0
      some (if E.cx > rowlen then { E with cx := rowlen } else E)

/-! ## Search -/

/-- The library call `tolower` on an `unsigned char`, in the "C" locale the program runs
in (it never calls `setlocale`). -/
def tolower (c : UInt8) : UInt8 := if 65 ≤ c ∧ c ≤ 90 then c + 32 else c

/-- The C string that starts at a pointer into a row: the bytes up to the first NUL (the
row's terminator when the bytes hold none). -/
def cstring (chars : List UInt8) : List UInt8 := chars.takeWhile (fun c => c != 0)

/-- The inner loop `for (h = haystack, n = needle; *h && *n; h++, n++)` of
`strcasestr_impl` together with the test `*n == '\0'` behind it: `true` when the needle was
consumed without a mismatch. -/
def needleAt : List UInt8 → List UInt8 → Bool
  | _, [] => true
  | [], _ :: _ => false
  | a :: h, b :: n => if tolower a != tolower b then false else needleAt h n

/-- The function `strcasestr_impl(haystack, needle)` on the contents of two C strings; the
result is the offset `match - haystack` of the returned pointer, `none` for `NULL`. -/
def strcasestr_impl : List UInt8 → List UInt8 → Option Nat
  | _, [] => some 0
  | [], _ :: _ => none
  | a :: hs, b :: n =>
    if tolower a = tolower b ∧ needleAt (a :: hs) (b :: n) = true then some 0
    else (strcasestr_impl hs (b :: n)).map (fun off => off + 1)

/-- The static variables `last_match` and `direction` of `editorFindCallback`. -/
structure findState where
  last_match : Int
  direction : Int
  deriving DecidableEq

/-- The initial values of the static variables of `editorFindCallback`. -/
def findInit : findState := { last_match := -1, direction := 1 }

/-- The key dispatch of `editorFindCallback` for a key other than Enter and Escape, with the
line `if (last_match == -1) direction = 1;` behind it: the values of `last_match` and
`direction` the row loop starts from. -/
def findResolve (key : Int) (fs : findState) : findState :=
  let fs :=
    if key = ARROW_RIGHT ∨ key = ARROW_DOWN then { fs with direction := 1 }
    else if key = ARROW_LEFT ∨ key = ARROW_UP then { fs with direction := -1 }
    else { last_match := -1, direction := 1 }
  if fs.last_match = -1 then { fs with direction := 1 } else fs

/-- The loop `for (i = 0; i < E.numrows; i++)` of `editorFindCallback` with `n` iterations
left: the row and the column of the match it breaks at, or nothing when it runs to its
end. -/
def findLoop (query : List UInt8) (E : editorConfig) (direction : Int) :
    Nat → Int → Option (Option (Int × Int))
  | 0, _ => some none
  | n + 1, current =>
    let current := current + direction
    let current :=
      if current = -1 then numrows E - 1
      else if current = numrows E then 0
      else current
    match rowAt E current with
    | none => none
    | some row =>
      match strcasestr_impl (cstring row) query with
      | some off => some (some (current, (off : Int)))
      | none => findLoop query E direction n current

/-- The function `editorFindCallback(query, key)`; `query` is the content of the C string
it is given. -/
def editorFindCallback (query : List UInt8) (key : Int) (fs : findState)
    (E : editorConfig) : Option (findState × editorConfig) :=
  let E := { E with highlight_query := some query }
  if key = ENTER_KEY ∨ key = ESC_KEY then some (findInit, E)
  else
    let fs := findResolve key fs
    match findLoop query E fs.direction (numrows E).toNat fs.last_match with
    | none => none
    | some none => some (fs, E)
    | some (some (current, col)) =>
      some ({ fs with last_match := current },
            { E with cy := current, cx := col, rowoff := numrows E })

/-! ## Viewport -/

/-- The loop `while (max_line >= 10) { max_line /= 10; digits++; }` of
`editorLineNumberWidth`, run for at most `fuel` iterations. -/
def lineNumberLoop : Nat → Int → Int → Int
  | 0, _, digits => digits
  | fuel + 1, max_line, digits =>
    if max_line ≥ 10 then lineNumberLoop fuel (max_line / 10) (digits + 1) else digits

/-- The function `editorLineNumberWidth`.  The loop gets `max_line` iterations, more than
it takes (`lineNumberLoop_fuel`). -/
def editorLineNumberWidth (E : editorConfig) : Int :=
  let max_line := if numrows E > 0 then numrows E else 1
  lineNumberLoop max_line.toNat max_line 1 + 1

/-- The function `editorScroll`. -/
def editorScroll (E : editorConfig) : editorConfig :=
  let E := if E.cy < E.rowoff then { E with rowoff := E.cy } else E
  let E := if E.cy ≥ E.rowoff + E.screenrows then
    { E with rowoff := E.cy - E.screenrows + 1 } else E
  let available_width := E.screencols - editorLineNumberWidth E
  let E := if E.cx < E.coloff then { E with coloff := E.cx } else E
  if E.cx ≥ E.coloff + available_width then
    { E with coloff := E.cx - available_width + 1 }
  else E

/-! ## Rendering -/

/-- The escape sequence `"\x1b[7m"` (inverted colours). -/
def escInvert : List UInt8 := [27, 91, 55, 109]

/-- The escape sequence `"\x1b[m"` (normal colours). -/
def escReset : List UInt8 := [27, 91, 109]

/-- The escape sequence `"\x1b[K"` (clear to the end of the line). -/
def escClearLine : List UInt8 := [27, 91, 75]

/-- The call `abAppend(ab, row->chars + pos, len)`.  A negative `len`, or a positive `len`
whose bytes are not all inside `chars[0 .. size)`, is an out-of-bounds copy (`none`); with
`len == 0` nothing is read. -/
def abAppendAt (ab : abuf) (row : erow) (pos len : Int) : Option abuf :=
  if len < 0 then none
  else if len = 0 then some ab
  else if pos < 0 ∨ pos + len > rowSize row then none
  else some (abAppend ab (columns row pos (pos + len)))

/-- The loop `while (current < end_of_visible)` of the search highlighting in
`editorDrawRows`, with pointers into the row written as column offsets (`current` is not
negative).  It is run for at most `fuel` iterations; `none` means that the loop has not
ended within them. -/
def searchLoop (row : erow) (query : List UInt8) (end_of_visible : Int) :
    Nat → Nat → abuf → Option abuf
  | 0, _, _ => none
  | fuel + 1, current, ab =>
    if (current : Int) < end_of_visible then
      match strcasestr_impl (cstring (row.drop current)) query with
      | some off =>
        let m := current + off
        if (m : Int) < end_of_visible then
          let ab := abAppend ab (columns row current m)
          let ab := abAppend ab escInvert
          let match_len : Int :=
            if (m : Int) + query.length > end_of_visible then end_of_visible - m
            else query.length
          let ab := abAppend ab (columns row m (m + match_len))
          let ab := abAppend ab escReset
          searchLoop row query end_of_visible fuel (m + query.length) ab
        else some (abAppend ab (columns row current end_of_visible))
      | none => some (abAppend ab (columns row current end_of_visible))
    else some ab

/-- The block of `editorDrawRows` that draws the text of the document row `filerow`
(`erow *row = &E.row[filerow]` down to the end of the highlighting logic): the buffer after
the block.  The search loop gets `fuel` iterations; `none` when it has not ended within them
or when a copy is out of bounds. -/
def drawRowText (fuel : Nat) (E : editorConfig) (filerow : Int) (row : erow) (ab : abuf) :
    Option abuf :=
  let (start_y, start_x, end_y, end_x) := selRange E
  let available_width := E.screencols - editorLineNumberWidth E
  let is_row_selected : Bool := E.selecting && decide (filerow ≥ start_y ∧ filerow ≤ end_y)
  let sel_start_col := if is_row_selected then (if filerow = start_y then start_x else 0) else -1
  let sel_end_col :=
    if is_row_selected then (if filerow = end_y then end_x else rowSize row) else -1
  let highlight_search := if is_row_selected then none else E.highlight_query
  let visible_len := rowSize row - E.coloff
  let visible_len := if visible_len < 0 then 0 else visible_len
  let visible_len := if visible_len > available_width then available_width else visible_len
  if !is_row_selected && highlight_search.isNone then
    abAppendAt ab row E.coloff visible_len
  else
    let vis_sel_start :=
      if sel_start_col ≠ -1 then (if E.coloff > sel_start_col then E.coloff else sel_start_col)
      else -1
    let vis_sel_end :=
      if sel_end_col ≠ -1 then
        (if E.coloff + visible_len < sel_end_col then E.coloff + visible_len else sel_end_col)
      else -1
    if is_row_selected ∧ vis_sel_start < vis_sel_end then
      let pre_len := vis_sel_start - E.coloff
      match (if pre_len > 0 then abAppendAt ab row E.coloff pre_len else some ab) with
      | none => none
      | some ab =>
        let ab := abAppend ab escInvert
        match abAppendAt ab row vis_sel_start (vis_sel_end - vis_sel_start) with
        | none => none
        | some ab =>
          let ab := abAppend ab escReset
          let post_start_offset := vis_sel_end - E.coloff
          let post_len := visible_len - post_start_offset
          if post_len > 0 then abAppendAt ab row (E.coloff + post_start_offset) post_len
          else some ab
    else
      match highlight_search with
      | some query =>
        if 0 < visible_len ∧ E.coloff < 0 then none
        else searchLoop row query (E.coloff + visible_len) fuel E.coloff.toNat ab
      | none => abAppendAt ab row E.coloff visible_len

/-- The decimal digits that `%d` prints for an `int`. -/
def decimal (i : Int) : List UInt8 := (toString i).toList.map (fun c => c.toNat.toUInt8)

/-- The conversion `%*s` / `%*d`: the text right-aligned in a field of `width` bytes. -/
def padLeft (width : Int) (text : List UInt8) : List UInt8 :=
  List.replicate (width.toNat - text.length) 32 ++ text

/-- The text of the welcome line. -/
def welcome : List UInt8 :=
  "Cilo editor -- version 0.0.1".toList.map (fun c => c.toNat.toUInt8)

/-- One iteration of the loop `for (y = 0; y < E.screenrows; y++)` of `editorDrawRows`: the
bytes appended for screen line `y`. -/
def drawRow (fuel : Nat) (E : editorConfig) (y : Int) : Option abuf :=
  let line_num_width := editorLineNumberWidth E
  let filerow := y + E.rowoff
  let line_num :=
    if filerow ≥ numrows E then padLeft line_num_width [126]
    else padLeft (line_num_width - 1) (decimal (filerow + 1)) ++ [32]
  let ab := abAppend [] (line_num.take line_num_width.toNat)
  let body : Option abuf :=
    if filerow ≥ numrows E then
      if numrows E = 0 ∧ y = E.screenrows / 3 then
        let available_width := E.screencols - line_num_width
        let welcomelen : Int := welcome.length
        let welcomelen := if welcomelen > available_width then available_width else welcomelen
        let padding := (available_width - welcomelen) / 2
        if welcomelen < 0 then none
        else some (abAppend (abAppend ab (List.replicate padding.toNat 32))
          (welcome.take welcomelen.toNat))
      else some ab
    else
      match rowAt E filerow with
      | none => none
      | some row => drawRowText fuel E filerow row ab
  body.map (fun ab => abAppend (abAppend ab escClearLine) [13, 10])

/-- The function `editorDrawRows`: the bytes appended for the screen lines `y`, `y + 1`, ...
(`n` of them), each with `fuel` iterations for its search loop. -/
def editorDrawRows (fuel : Nat) (E : editorConfig) : Nat → Int → Option abuf
  | 0, _ => some []
  | n + 1, y =>
    match drawRow fuel E y with
    | none => none
    | some line => (editorDrawRows fuel E n (y + 1)).map (fun rest => line ++ rest)

/-- The effect of `editorRefreshScreen` on the editor state: the call of `editorScroll`.  The
bytes it builds with `editorDrawRows` go to the terminal and are not part of the state;
whether `editorDrawRows` returns at all is the subject of `searchLoop`, not of this
function. -/
def editorRefreshScreen (E : editorConfig) : editorConfig := editorScroll E

/-- The library call `iscntrl` on the key codes below 128 (a key code that is negative or
above 127 is not a control character here; above 127 the test `c < 128` of `editorPrompt`
fails whatever `iscntrl` answers). -/
def iscntrl (c : Int) : Bool := decide ((0 ≤ c ∧ c < 32) ∨ c = 127)

/-- The status line `"Search: %s (Use ESC/Arrows/Enter)"` for the typed text `buf`. -/
def searchPrompt (buf : List UInt8) : String :=
  "Search: " ++ String.mk (buf.map (fun c => Char.ofNat c.toNat)) ++ " (Use ESC/Arrows/Enter)"

/-- The function `editorPrompt` with `editorFindCallback` as its callback, reading the keys
of the list one after the other; `buf` is the text typed so far.  The result is the returned
pointer (`none` for `NULL`) with the state; the outer `none` means that the keys ran out
before the prompt returned, or an out-of-bounds access in the callback. -/
def editorPrompt : List Int → List UInt8 → findState → editorConfig →
    Option (Option (List UInt8) × findState × editorConfig)
  | [], _, _, _ => none
  | c :: keys, buf, fs, E =>
    let E := editorRefreshScreen (editorSetStatusMessage (searchPrompt buf) E)
    if c = DEL_KEY ∨ c = CTRL_H ∨ c = BACKSPACE then
      let buf := buf.dropLast
      match editorFindCallback buf c fs E with
      | none => none
      | some (fs, E) => editorPrompt keys buf fs E
    else if c = ESC_KEY then
      match editorFindCallback buf c fs (editorSetStatusMessage "" E) with
      | none => none
      | some (fs, E) => some (none, fs, E)
    else if c = ENTER_KEY then
      if buf ≠ [] then
        match editorFindCallback buf c fs (editorSetStatusMessage "" E) with
        | none => none
        | some (fs, E) => some (some buf, fs, E)
      else
        match editorFindCallback buf c fs E with
        | none => none
        | some (fs, E) => editorPrompt keys buf fs E
    else
      let buf := if iscntrl c = false ∧ c < 128 then buf ++ [((c % 256).toNat.toUInt8)] else buf
      match editorFindCallback buf c fs E with
      | none => none
      | some (fs, E) => editorPrompt keys buf fs E

/-- The function `editorFind`, reading the keys of the list. -/
def editorFind (keys : List Int) (fs : findState) (E : editorConfig) :
    Option (findState × editorConfig) :=
  let saved_cx := E.cx
  let saved_cy := E.cy
  let saved_rowoff := E.rowoff
  match editorPrompt keys [] fs E with
  | none => none
  | some (query, fs, E) =>
    let E := { E with highlight_query := none }
    match query with
    | some _ => some (fs, E)
    | none => some (fs, { E with cx := saved_cx, cy := saved_cy, rowoff := saved_rowoff })

/-! ## Reference definitions taken from the specification -/

/-- The operation `extract(range)` as the specification words it: on one row the clipped
substring `[start_x, min(end_x, row.size))`, or nothing when `start_x >= row.size` or
`start_x >= end_x`; on several rows the start row's suffix from `start_x`, a newline, every
interior row followed by a newline, and the end row's prefix of length
`min(end_x, row.size)`; nothing when `start_y < 0` or `end_y >= numrows`. -/
def extractSpec (rows : List erow) (start_y start_x end_y end_x : Int) :
    Option (List UInt8) :=
  if start_y < 0 ∨ end_y ≥ (rows.length : Int) then none
  else if start_y = end_y then
    let row := rows.getD start_y.toNat []
    if start_x ≥ rowSize row ∨ start_x ≥ end_x then none
    else some (columns row start_x (min end_x (rowSize row)))
  else
    let first := rows.getD start_y.toNat []
    let last := rows.getD end_y.toNat []
    let interior := (rows.take end_y.toNat).drop (start_y.toNat + 1)
    some (first.drop start_x.toNat ++ [10] ++ (interior.map (fun r => r ++ [10])).flatten
          ++ last.take (min end_x (rowSize last)).toNat)

/-- The query occurs in the text at column `i`, letter case ignored: the `query.length`
bytes of the text from column `i` on equal the query once both are put in lower case. -/
def occursAt (text query : List UInt8) (i : Nat) : Prop :=
  ((text.drop i).take query.length).map tolower = query.map tolower

instance (text query : List UInt8) (i : Nat) : Decidable (occursAt text query i) := by
  unfold occursAt; infer_instance

/-- Column `col` is the leftmost occurrence of the query in the text. -/
def isLeftmost (text query : List UInt8) (col : Nat) : Prop :=
  occursAt text query col ∧ ∀ j, j < col → ¬ occursAt text query j

/-- The text contains an occurrence of the query, letter case ignored. -/
def hasOccurrence (text query : List UInt8) : Bool :=
  (List.range (text.length + 1)).any (fun i => decide (occursAt text query i))

/-- The cyclic order in which a search examines the rows of a document of `n` rows: the rows
`last_match + k * direction (mod n)` for `k = 1 .. n`. -/
def scanOrder (last_match direction : Int) (n : Nat) : List Int :=
  (List.range n).map (fun (k : Nat) => (last_match + ((k : Int) + 1) * direction) % (n : Int))

/-- The row index a search starts behind, as the key decides it: an arrow key keeps
`last_match`, any other key restarts the search (`-1`, so that the first row examined is
row 0). -/
def searchStart (key last_match : Int) : Int :=
  if key = ARROW_RIGHT ∨ key = ARROW_DOWN ∨ key = ARROW_LEFT ∨ key = ARROW_UP then last_match
  else -1

/-- The direction of a search, as the key decides it: backward (`-1`) for the left and up
arrows when there is a last match to step back from, forward (`+1`) for every other key
and whenever `last_match` is `-1`. -/
def searchDirection (key last_match : Int) : Int :=
  if (key = ARROW_LEFT ∨ key = ARROW_UP) ∧ last_match ≠ -1 then -1 else 1

/-- The style of a span of rendered text. -/
inductive Style where
  | normal
  | inverted
  deriving DecidableEq

/-- The bytes of one styled span: the text itself, wrapped in the escape sequences for
inverted colours when the span is inverted. -/
def renderSpan : Style × List UInt8 → List UInt8
  | (Style.normal, text) => text
  | (Style.inverted, text) => escInvert ++ text ++ escReset

/-- The bytes of a sequence of styled spans. -/
def renderSpans (spans : List (Style × List UInt8)) : List UInt8 :=
  (spans.map renderSpan).flatten

/-- The length of the visible slice of a row whose size is at least `coloff`, in a text area
that is not of negative width: `min(row.size - coloff, available_width)`. -/
def visibleLen (E : editorConfig) (row : erow) : Int :=
  min (rowSize row - E.coloff) (E.screencols - editorLineNumberWidth E)

/-- The leftmost column in `[pos, stop)` at which the query occurs in the row. -/
def nextOccurrence (row query : List UInt8) (pos stop : Nat) : Option Nat :=
  (List.range' pos (stop - pos)).find? (fun i => decide (occursAt row query i))

/-- The search overlay of the slice `[pos, stop)` as the specification words it, with `fuel`
bounding the number of occurrences: the leftmost occurrence at or after `pos` that starts
inside the slice becomes an inverted span, cut off at `stop`, with the text before it as a
normal span, and the overlay goes on behind that occurrence; text without a further
occurrence is one normal span. -/
def searchSpansFrom (row query : List UInt8) (stop : Nat) :
    Nat → Nat → List (Style × List UInt8)
  | 0, _ => []
  | fuel + 1, pos =>
    if pos < stop then
      match nextOccurrence row query pos stop with
      | some col =>
        (Style.normal, columns row pos col) ::
        (Style.inverted, columns row col (min (col + query.length) stop)) ::
        searchSpansFrom row query stop fuel (col + query.length)
      | none => [(Style.normal, columns row pos stop)]
    else []

/-- The search overlay of the slice `[pos, stop)` of a row. -/
def searchSpans (row query : List UInt8) (pos stop : Nat) : List (Style × List UInt8) :=
  searchSpansFrom row query stop (stop - pos + 1) pos

/-! ## Sample states -/

/-- A sample state: the document `["hello", "world"]` of the specification's scenarios with
the cursor at row `cy`, column `cx`. -/
def helloWorld (cy cx : Int) : editorConfig :=
  { initEditor 26 80 with
    row := [[104, 101, 108, 108, 111], [119, 111, 114, 108, 100]], cy := cy, cx := cx }

/-- A document with the single row `"a\r"`. -/
def crDocument : editorConfig := { initEditor 26 80 with row := [[97, 13]] }

/-- The sample document with an active selection: anchor at row `ay`, column `ax`, cursor
at row `cy`, column `cx`. -/
def selected (ay ax cy cx : Int) : editorConfig :=
  { helloWorld cy cx with selecting := true, sel_start_y := ay, sel_start_x := ax }

/-- The document with the single row `"abcABCabc"` of the search scenario. -/
def abcDocument : editorConfig :=
  { initEditor 26 80 with row := [[97, 98, 99, 65, 66, 67, 97, 98, 99]] }

/-- A document with one row of 24 bytes `'a'` and a final `'x'`, in a window of 20 columns
and 10 lines. -/
def longRow : editorConfig :=
  { initEditor 10 20 with row := [List.replicate 24 97 ++ [120]] }

/-- The document `["abcABCabc"]` scrolled two columns to the right in a window of 7
columns (a text area of 5 columns), with the query `"bC"` highlighted. -/
def abcQuery : editorConfig :=
  { abcDocument with highlight_query := some [98, 67], coloff := 2, screencols := 7 }

/-- The document `["ab", "c", "abc"]`: a search for `"ab"` behind a match on row 0 finds
row 2 when it goes on from row 0 and row 0 when it restarts. -/
def abDocument : editorConfig :=
  { initEditor 26 80 with row := [[97, 98], [99], [97, 98, 99]] }

/-- The search state after a match on row 0 in forward direction. -/
def searchedRow0 : findState := { last_match := 0, direction := 1 }

/-- A document with one row of 30 bytes, `'x'` at column 2 and `'a'` elsewhere, in a window
of 20 columns and 10 lines, with the cursor at column 10 and the text scrolled to
`coloff = 8` (the state after moving right to column 25 and back left to column 10). -/
def scrolledRow : editorConfig :=
  { initEditor 10 20 with
    row := [[97, 97, 120] ++ List.replicate 27 97], cx := 10, coloff := 8 }

/-- The document `["abcABCabc"]` with the empty string as `highlight_query`: the state in
which the screen is drawn when the first key of a search session is Backspace or an arrow
key, or when the typed text has been erased again. -/
def emptyQuery : editorConfig := { abcDocument with highlight_query := some [] }

/-! # Theorems -/

/-! ## Access lemmas -/

theorem numrows_nonneg (E : editorConfig) : 0 ≤ numrows E := by
  unfold numrows; omega

theorem rowAt_natCast (E : editorConfig) (n : Nat) : rowAt E (n : Int) = E.row[n]? := by
  simp [rowAt]

theorem lt_length_of_getElem? {α : Type} {l : List α} {n : Nat} {a : α}
    (h : l[n]? = some a) : n < l.length := by
  obtain ⟨h', _⟩ := List.getElem?_eq_some.mp h
  exact h'

theorem set_eq_take_cons_drop {α : Type} (l : List α) (n : Nat) (a : α) (h : n < l.length) :
    l.set n a = l.take n ++ a :: l.drop (n + 1) := by
  rw [List.set_eq_take_append_cons_drop, if_pos h]

theorem take_cons_drop_of_getElem? {α : Type} {l : List α} {n : Nat} {a : α}
    (h : l[n]? = some a) : l.take n ++ a :: l.drop (n + 1) = l := by
  have hlt := lt_length_of_getElem? h
  rw [← set_eq_take_cons_drop l n a hlt]
  apply List.ext_getElem?
  intro i
  rw [List.getElem?_set]
  split
  · subst_vars; simp [hlt, h]
  · rfl

theorem editorInsertRow_natCast (E : editorConfig) (n : Nat) (s : List UInt8)
    (h : n ≤ E.row.length) :
    editorInsertRow (n : Int) s E = { E with row := E.row.take n ++ s :: E.row.drop n } := by
  unfold editorInsertRow
  rw [if_neg (by unfold numrows; omega)]
  simp

theorem editorDelRow_natCast (E : editorConfig) (n : Nat) (h : n < E.row.length) :
    editorDelRow (n : Int) E = { E with row := E.row.take n ++ E.row.drop (n + 1) } := by
  unfold editorDelRow
  rw [if_neg (by unfold numrows; omega)]
  simp

theorem drop_eq_cons_of_getElem? {α : Type} {l : List α} {n : Nat} {a : α}
    (h : l[n]? = some a) : l.drop n = a :: l.drop (n + 1) := by
  have hlt := lt_length_of_getElem? h
  have := congrArg (List.drop n) (take_cons_drop_of_getElem? h)
  rw [List.drop_left' (by simp; omega)] at this
  exact this.symm

theorem take_succ_of_getElem? {α : Type} {l : List α} {n : Nat} {a : α}
    (h : l[n]? = some a) : l.take (n + 1) = l.take n ++ [a] := by
  rw [List.take_succ, h]; rfl

theorem drop_succ_take_append {α : Type} (l rest : List α) (n : Nat) (a : α)
    (h : n ≤ l.length) : (l.take n ++ a :: rest).drop (n + 1) = rest := by
  have : l.take n ++ a :: rest = (l.take n ++ [a]) ++ rest := by simp
  rw [this, List.drop_left' (by simp; omega)]

theorem take_take_append {α : Type} (l rest : List α) (n : Nat)
    (h : n ≤ l.length) : (l.take n ++ rest).take n = l.take n := by
  rw [List.take_left' (by simp; omega)]

theorem take_succ_take_append {α : Type} (l rest : List α) (n : Nat) (a : α)
    (h : n ≤ l.length) : (l.take n ++ a :: rest).take (n + 1) = l.take n ++ [a] := by
  have : l.take n ++ a :: rest = (l.take n ++ [a]) ++ rest := by simp
  rw [this, List.take_left' (by simp; omega)]

theorem drop_add_take_append {α : Type} (l rest : List α) (n k : Nat)
    (h : n ≤ l.length) : (l.take n ++ rest).drop (n + k) = rest.drop k := by
  rw [← List.drop_drop, List.drop_left' (by simp; omega)]

/-- Closed form of `editorInsertNewline` for a cursor on an existing row. -/
theorem editorInsertNewline_eq (E : editorConfig) (n m : Nat) (row : erow)
    (hcy : E.cy = n) (hcx : E.cx = m) (hrow : E.row[n]? = some row) (hm : m ≤ row.length) :
    editorInsertNewline E = some { E with
      row := E.row.take n ++ row.take m :: row.drop m :: E.row.drop (n + 1),
      cy := n + 1, cx := 0 } := by
  have hlt := lt_length_of_getElem? hrow
  have hdrop := drop_eq_cons_of_getElem? hrow
  have htake := take_succ_of_getElem? hrow
  unfold editorInsertNewline
  rw [if_neg (by unfold numrows; omega), hcy, rowAt_natCast, hrow, hcx]
  simp only
  by_cases h0 : m = 0
  · subst h0
    rw [if_pos (by simp), editorInsertRow_natCast E n [] (by omega)]
    simp [hdrop]
  · rw [if_neg (by omega)]
    have e1 : ((n : Int) + 1) = ((n + 1 : Nat) : Int) := by push_cast; rfl
    by_cases h1 : m = row.length
    · rw [if_pos (by unfold rowSize; omega), e1, editorInsertRow_natCast E (n + 1) [] (by omega)]
      simp [h1, htake]
    · rw [if_neg (by unfold rowSize; omega), if_neg (by omega), e1,
        editorInsertRow_natCast E (n + 1) _ (by omega)]
      simp only [setRow, Int.toNat_ofNat, htake]
      rw [set_eq_take_cons_drop _ _ _ (by simp; omega)]
      simp only [List.append_assoc, List.singleton_append]
      rw [take_take_append _ _ _ (by omega), drop_succ_take_append _ _ _ _ (by omega)]

/-- Closed form of `editorInsertNewline` for a cursor on the virtual trailing line. -/
theorem editorInsertNewline_eq_end (E : editorConfig) (hcy : E.cy = numrows E) :
    editorInsertNewline E = some { E with row := E.row ++ [[]], cy := E.cy + 1, cx := 0 } := by
  unfold editorInsertNewline
  rw [if_pos (by omega)]
  unfold numrows
  rw [editorInsertRow_natCast E _ [] (le_refl _)]
  simp

/-- Closed form of `editorInsertChar` for a cursor on an existing row. -/
theorem editorInsertChar_eq (c : UInt8) (E : editorConfig) (n m : Nat) (row : erow)
    (hcy : E.cy = n) (hcx : E.cx = m) (hrow : E.row[n]? = some row) (hm : m ≤ row.length) :
    editorInsertChar c E = some { E with
      row := E.row.set n (row.take m ++ c :: row.drop m), cx := m + 1 } := by
  have hlt := lt_length_of_getElem? hrow
  unfold editorInsertChar
  rw [if_neg (by unfold numrows; omega)]
  simp only [hcy, rowAt_natCast, hrow, hcx]
  rw [if_neg (by unfold rowSize; omega)]
  simp [setRow, hcy]

/-- Closed form of `editorInsertChar` for a cursor on the virtual trailing line. -/
theorem editorInsertChar_eq_end (c : UInt8) (E : editorConfig)
    (hcy : E.cy = numrows E) (hcx : E.cx = 0) :
    editorInsertChar c E = some { E with row := E.row ++ [[c]], cx := 1 } := by
  unfold editorInsertChar
  rw [if_pos hcy]
  unfold numrows at *
  rw [editorInsertRow_natCast E _ [] (le_refl _)]
  simp [hcy, rowAt_natCast, hcx, rowSize, setRow]

/-- Closed form of `editorDelChar` inside a row. -/
theorem editorDelChar_eq_char (E : editorConfig) (n m : Nat) (row : erow)
    (hcy : E.cy = n) (hcx : E.cx = (m + 1 : Nat)) (hrow : E.row[n]? = some row) :
    editorDelChar E = some { E with
      row := E.row.set n (editorRowDelChar row m), cx := m } := by
  have hlt := lt_length_of_getElem? hrow
  unfold editorDelChar
  rw [if_neg (by unfold numrows; omega), if_neg (by omega)]
  simp only [hcy, rowAt_natCast, hrow, hcx]
  rw [if_pos (by omega)]
  simp [setRow, hcy]

/-- Closed form of `editorDelChar` at column 0 of a row that has a predecessor. -/
theorem editorDelChar_eq_join (E : editorConfig) (n : Nat) (prev row : erow)
    (hcy : E.cy = (n + 1 : Nat)) (hcx : E.cx = 0)
    (hprev : E.row[n]? = some prev) (hrow : E.row[n + 1]? = some row) :
    editorDelChar E = some { E with
      row := E.row.take n ++ (prev ++ row) :: E.row.drop (n + 2),
      cx := prev.length, cy := n } := by
  have hlt := lt_length_of_getElem? hrow
  unfold editorDelChar
  rw [if_neg (by unfold numrows; omega), if_neg (by omega)]
  simp only [hcy, rowAt_natCast, hrow, hcx]
  rw [if_neg (by omega)]
  have e1 : (((n + 1 : Nat) : Int) - 1) = (n : Int) := by push_cast; omega
  simp only [e1, rowAt_natCast, hprev, setRow, Int.toNat_ofNat]
  rw [editorDelRow_natCast _ _ (by simp; omega)]
  simp only [editorRowAppendString, rowSize]
  rw [set_eq_take_cons_drop _ _ _ (by omega)]
  rw [take_succ_take_append _ _ _ _ (by omega), drop_add_take_append _ _ n 2 (by omega)]
  simp

/-- Closed form of the forward delete inside a row. -/
theorem keypressDelKey_eq_char (E : editorConfig) (n m : Nat) (row : erow)
    (hcy : E.cy = n) (hcx : E.cx = m) (hrow : E.row[n]? = some row) (hm : m < row.length) :
    keypressDelKey E = some { E with row := E.row.set n (editorRowDelChar row m) } := by
  have hlt := lt_length_of_getElem? hrow
  unfold keypressDelKey
  rw [if_neg (by unfold numrows; omega)]
  simp only [hcy, rowAt_natCast, hrow, hcx]
  rw [if_pos (by unfold rowSize; omega)]
  simp [setRow, hcx, hcy]

/-- Closed form of the forward delete at the end of a row that has a successor. -/
theorem keypressDelKey_eq_join (E : editorConfig) (n m : Nat) (row next : erow)
    (hcy : E.cy = n) (hcx : E.cx = m) (hrow : E.row[n]? = some row)
    (hnext : E.row[n + 1]? = some next) (hm : row.length ≤ m) :
    keypressDelKey E = some { E with
      row := E.row.take n ++ (row ++ next) :: E.row.drop (n + 2) } := by
  have hlt := lt_length_of_getElem? hnext
  unfold keypressDelKey
  rw [if_neg (by unfold numrows; omega)]
  simp only [hcy, rowAt_natCast, hrow, hcx]
  rw [if_neg (by unfold rowSize; omega), if_pos (by unfold numrows; omega)]
  have e1 : ((n : Int) + 1) = ((n + 1 : Nat) : Int) := by push_cast; rfl
  simp only [e1, rowAt_natCast, hnext, setRow, Int.toNat_ofNat]
  rw [editorDelRow_natCast _ _ (by simp; omega)]
  simp only [editorRowAppendString]
  rw [set_eq_take_cons_drop _ _ _ (by omega)]
  rw [take_succ_take_append _ _ _ _ (by omega), drop_add_take_append _ _ n 2 (by omega)]
  simp [hcx, hcy]

/-- Closed form of the forward delete at the end of the last row. -/
theorem keypressDelKey_eq_last (E : editorConfig) (n m : Nat) (row : erow)
    (hcy : E.cy = n) (hcx : E.cx = m) (hrow : E.row[n]? = some row)
    (hlast : n + 1 = E.row.length) (hm : row.length ≤ m) :
    keypressDelKey E = some E := by
  unfold keypressDelKey
  rw [if_neg (by unfold numrows; omega)]
  simp only [hcy, rowAt_natCast, hrow, hcx]
  rw [if_neg (by unfold rowSize; omega), if_neg (by unfold numrows; omega)]

/-! ## The Cursor invariant -/

theorem cursorInv_of_row (E : editorConfig) (n m : Nat) (row : erow)
    (hcy : E.cy = n) (hcx : E.cx = m) (hrow : E.row[n]? = some row) (hm : m ≤ row.length) :
    cursorInv E := by
  have hlt := lt_length_of_getElem? hrow
  unfold cursorInv numrows
  refine ⟨by omega, by omega, fun h => by omega, fun _ => ?_⟩
  rw [hcy, Int.toNat_ofNat, List.getD_eq_getElem?_getD, hrow]
  simp only [Option.getD_some, rowSize]
  omega

theorem cursorInv_of_end (E : editorConfig) (hcy : E.cy = numrows E) (hcx : E.cx = 0) :
    cursorInv E := by
  have := numrows_nonneg E
  unfold cursorInv
  exact ⟨by omega, by omega, fun _ => hcx, fun h => by omega⟩

theorem cursorInv_cases (E : editorConfig) (h : cursorInv E) :
    (E.cy = numrows E ∧ E.cx = 0) ∨
    ∃ (n m : Nat) (row : erow),
      E.cy = n ∧ E.cx = m ∧ E.row[n]? = some row ∧ m ≤ row.length := by
  obtain ⟨h0, h1, hv, hr⟩ := h
  by_cases hlast : E.cy = numrows E
  · exact Or.inl ⟨hlast, hv hlast⟩
  · right
    have hlt : E.cy < numrows E := by omega
    obtain ⟨hx0, hx1⟩ := hr hlt
    unfold numrows at hlt
    have hn : E.cy.toNat < E.row.length := by omega
    refine ⟨E.cy.toNat, E.cx.toNat, E.row[E.cy.toNat], by omega, by omega,
      List.getElem?_eq_getElem hn, ?_⟩
    rw [List.getD_eq_getElem?_getD, List.getElem?_eq_getElem hn] at hx1
    simp only [Option.getD_some, rowSize] at hx1
    omega

theorem length_editorRowDelChar (row : erow) (k : Nat) (h : k < row.length) :
    (editorRowDelChar row k).length + 1 = row.length := by
  unfold editorRowDelChar
  rw [if_neg (by unfold rowSize; omega)]
  simp
  omega

theorem getElem?_take_cons (rows rest : List erow) (n : Nat) (a : erow)
    (h : n ≤ rows.length) : (rows.take n ++ a :: rest)[n]? = some a := by
  rw [List.getElem?_append_right (by simp)]
  simp [h]

theorem editorInsertChar_inv (c : UInt8) (E : editorConfig) (h : cursorInv E) :
    ∃ E', editorInsertChar c E = some E' ∧ cursorInv E' := by
  rcases cursorInv_cases E h with ⟨hcy, hcx⟩ | ⟨n, m, row, hcy, hcx, hrow, hm⟩
  · refine ⟨_, editorInsertChar_eq_end c E hcy hcx, ?_⟩
    exact cursorInv_of_row _ E.row.length 1 [c] hcy rfl (by simp) (by simp)
  · have hlt := lt_length_of_getElem? hrow
    refine ⟨_, editorInsertChar_eq c E n m row hcy hcx hrow hm, ?_⟩
    refine cursorInv_of_row _ n (m + 1) _ hcy (by simp) (List.getElem?_set_self hlt) ?_
    simp
    omega

theorem editorDelChar_inv (E : editorConfig) (h : cursorInv E) :
    ∃ E', editorDelChar E = some E' ∧ cursorInv E' := by
  rcases cursorInv_cases E h with ⟨hcy, hcx⟩ | ⟨n, m, row, hcy, hcx, hrow, hm⟩
  · exact ⟨E, by unfold editorDelChar; rw [if_pos hcy], h⟩
  · have hlt := lt_length_of_getElem? hrow
    rcases m with _ | k
    · rcases n with _ | n'
      · refine ⟨E, ?_, h⟩
        unfold editorDelChar
        rw [if_neg (by unfold numrows; omega), if_pos ⟨by simpa using hcx, by simpa using hcy⟩]
      · have hp : n' < E.row.length := by omega
        refine ⟨_, editorDelChar_eq_join E n' _ row hcy (by simpa using hcx)
          (List.getElem?_eq_getElem hp) hrow, ?_⟩
        refine cursorInv_of_row _ n' (E.row[n']).length _ rfl rfl
          (getElem?_take_cons _ _ _ _ (by omega)) (by simp)
    · refine ⟨_, editorDelChar_eq_char E n k row hcy hcx hrow, ?_⟩
      refine cursorInv_of_row _ n k _ hcy rfl (List.getElem?_set_self hlt) ?_
      have := length_editorRowDelChar row k (by omega)
      omega

theorem keypressDelKey_inv (E : editorConfig) (h : cursorInv E) :
    ∃ E', keypressDelKey E = some E' ∧ cursorInv E' := by
  rcases cursorInv_cases E h with ⟨hcy, hcx⟩ | ⟨n, m, row, hcy, hcx, hrow, hm⟩
  · exact ⟨E, by unfold keypressDelKey; rw [if_pos (by omega)], h⟩
  · have hlt := lt_length_of_getElem? hrow
    by_cases h1 : m < row.length
    · refine ⟨_, keypressDelKey_eq_char E n m row hcy hcx hrow h1, ?_⟩
      refine cursorInv_of_row _ n m _ hcy hcx (List.getElem?_set_self hlt) ?_
      have := length_editorRowDelChar row m h1
      omega
    · by_cases h2 : n + 1 < E.row.length
      · refine ⟨_, keypressDelKey_eq_join E n m row _ hcy hcx hrow
          (List.getElem?_eq_getElem h2) (by omega), ?_⟩
        refine cursorInv_of_row _ n m _ hcy hcx (getElem?_take_cons _ _ _ _ (by omega)) ?_
        simp
        omega
      · exact ⟨E, keypressDelKey_eq_last E n m row hcy hcx hrow (by omega) (by omega), h⟩

theorem editorInsertNewline_inv (E : editorConfig) (h : cursorInv E) :
    ∃ E', editorInsertNewline E = some E' ∧ cursorInv E' := by
  rcases cursorInv_cases E h with ⟨hcy, hcx⟩ | ⟨n, m, row, hcy, hcx, hrow, hm⟩
  · refine ⟨_, editorInsertNewline_eq_end E hcy, ?_⟩
    apply cursorInv_of_end _ _ rfl
    unfold numrows at *
    simp [hcy]
  · have hlt := lt_length_of_getElem? hrow
    refine ⟨_, editorInsertNewline_eq E n m row hcy hcx hrow hm, ?_⟩
    refine cursorInv_of_row _ (n + 1) 0 (row.drop m) (by simp) rfl ?_ (by simp)
    show (E.row.take n ++ row.take m :: row.drop m :: E.row.drop (n + 1))[n + 1]? = _
    have : E.row.take n ++ row.take m :: row.drop m :: E.row.drop (n + 1)
        = (E.row.take n ++ [row.take m]) ++ row.drop m :: E.row.drop (n + 1) := by simp
    rw [this, List.getElem?_append_right (by simp)]
    simp
    have : min n E.row.length = n := by omega
    simp [this]

theorem rowAt_some (E : editorConfig) (i : Int) (row : erow) (h : rowAt E i = some row) :
    ∃ n : Nat, i = n ∧ i.toNat = n ∧ E.row[n]? = some row := by
  unfold rowAt at h
  split at h
  · exact ⟨i.toNat, by omega, rfl, h⟩
  · exact absurd h (by simp)

/-- Claim C1: in every state that satisfies the Cursor invariant, each single cursor-driven
mutation (`editorInsertChar`, `editorDelChar`, the `DEL_KEY` forward delete and
`editorInsertNewline`) returns a state, and that state satisfies the invariant again. -/
theorem C1_mutations_preserve_cursorInv (E : editorConfig) (c : UInt8) (h : cursorInv E) :
    (∃ E', editorInsertChar c E = some E' ∧ cursorInv E') ∧
    (∃ E', editorDelChar E = some E' ∧ cursorInv E') ∧
    (∃ E', keypressDelKey E = some E' ∧ cursorInv E') ∧
    (∃ E', editorInsertNewline E = some E' ∧ cursorInv E') :=
  ⟨editorInsertChar_inv c E h, editorDelChar_inv E h, keypressDelKey_inv E h,
    editorInsertNewline_inv E h⟩

theorem C1_witness :
    cursorInv (helloWorld 1 0) ∧
    ((∃ E', editorInsertChar 97 (helloWorld 1 0) = some E' ∧ cursorInv E') ∧
     (∃ E', editorDelChar (helloWorld 1 0) = some E' ∧ cursorInv E') ∧
     (∃ E', keypressDelKey (helloWorld 1 0) = some E' ∧ cursorInv E') ∧
     (∃ E', editorInsertNewline (helloWorld 1 0) = some E' ∧ cursorInv E')) :=
  ⟨by decide, C1_mutations_preserve_cursorInv (helloWorld 1 0) 97 (by decide)⟩

/-- Claim C3: with the cursor on an existing row `row` at a column `0 <= cx <= row.size`,
`editorInsertNewline` (in each of its three column cases) keeps the rows before `cy`, puts
the first `cx` bytes of `row` at index `cy` and the rest of `row` at index `cy + 1`, moves
every later row down by one index, and sets the cursor to row `cy + 1`, column 0. -/
theorem C3_editorInsertNewline_splits_row (E : editorConfig) (row : erow)
    (hrow : rowAt E E.cy = some row) (h0 : 0 ≤ E.cx) (h1 : E.cx ≤ rowSize row) :
    editorInsertNewline E = some { E with
      row := E.row.take E.cy.toNat ++
        row.take E.cx.toNat :: row.drop E.cx.toNat :: E.row.drop (E.cy.toNat + 1),
      cy := E.cy + 1, cx := 0 } := by
  obtain ⟨n, hn, hn', hr⟩ := rowAt_some E E.cy row hrow
  unfold rowSize at h1
  rw [editorInsertNewline_eq E n E.cx.toNat row hn (by omega) hr (by omega), hn', hn]

theorem C3_witness :
    rowAt (helloWorld 0 2) (helloWorld 0 2).cy = some [104, 101, 108, 108, 111] ∧
    0 ≤ (helloWorld 0 2).cx ∧ (helloWorld 0 2).cx ≤ rowSize [104, 101, 108, 108, 111] ∧
    editorInsertNewline (helloWorld 0 2) = some { helloWorld 0 2 with
      row := [[104, 101], [108, 108, 111], [119, 111, 114, 108, 100]], cy := 1, cx := 0 } :=
  ⟨by decide, by decide, by decide,
    C3_editorInsertNewline_splits_row (helloWorld 0 2) [104, 101, 108, 108, 111]
      (by decide) (by decide) (by decide)⟩

/-- Claim C2: with the cursor on an existing row at a column `0 <= cx <= row.size`,
`editorInsertNewline` followed by `editorDelChar` gives back the state it started from:
the same rows and the same cursor `(cy, cx)`. -/
theorem C2_newline_then_backspace_restores (E : editorConfig) (row : erow)
    (hrow : rowAt E E.cy = some row) (h0 : 0 ≤ E.cx) (h1 : E.cx ≤ rowSize row) :
    (editorInsertNewline E).bind editorDelChar = some E := by
  obtain ⟨n, hn, hn', hr⟩ := rowAt_some E E.cy row hrow
  have hlt := lt_length_of_getElem? hr
  unfold rowSize at h1
  rw [editorInsertNewline_eq E n E.cx.toNat row hn (by omega) hr (by omega), Option.some_bind]
  rw [editorDelChar_eq_join _ n (row.take E.cx.toNat) (row.drop E.cx.toNat) (by simp) rfl
    (getElem?_take_cons _ _ _ _ (by omega)) ?_]
  · simp only [take_take_append _ _ _ (Nat.le_of_lt hlt), List.take_append_drop,
      drop_add_take_append _ _ n 2 (Nat.le_of_lt hlt), List.drop_succ_cons, List.drop_zero,
      take_cons_drop_of_getElem? hr, List.length_take]
    have : (min E.cx.toNat row.length : Nat) = E.cx.toNat := by omega
    rw [this, Int.toNat_of_nonneg h0, ← hn]
  · show (E.row.take n ++ row.take E.cx.toNat :: row.drop E.cx.toNat :: E.row.drop (n + 1))[n + 1]? = _
    have : E.row.take n ++ row.take E.cx.toNat :: row.drop E.cx.toNat :: E.row.drop (n + 1)
        = (E.row.take n ++ [row.take E.cx.toNat]) ++ row.drop E.cx.toNat :: E.row.drop (n + 1) := by
      simp
    rw [this, List.getElem?_append_right (by simp)]
    have : min n E.row.length = n := by omega
    simp [this]

theorem C2_witness :
    rowAt (helloWorld 0 5) (helloWorld 0 5).cy = some [104, 101, 108, 108, 111] ∧
    0 ≤ (helloWorld 0 5).cx ∧ (helloWorld 0 5).cx ≤ rowSize [104, 101, 108, 108, 111] ∧
    (editorInsertNewline (helloWorld 0 5)).bind editorDelChar = some (helloWorld 0 5) :=
  ⟨by decide, by decide, by decide,
    C2_newline_then_backspace_restores (helloWorld 0 5) [104, 101, 108, 108, 111]
      (by decide) (by decide) (by decide)⟩

/-- Claim C4: with the cursor at column 0 of a row `r` with `0 < r < numrows`,
`editorDelChar` returns a document of `numrows - 1` rows in which row `r - 1` is the old
row `r - 1` followed by the old row `r`, the rows before it are unchanged and the rows after
`r` have moved up by one index; the cursor is at row `r - 1`, at the column that is the
length row `r - 1` had before the merge. -/
theorem C4_backspace_at_column_zero_joins (E : editorConfig) (prev row : erow)
    (hprev : rowAt E (E.cy - 1) = some prev) (hrow : rowAt E E.cy = some row)
    (hcx : E.cx = 0) :
    ∃ E', editorDelChar E = some E' ∧
      E'.row = E.row.take (E.cy.toNat - 1) ++ (prev ++ row) :: E.row.drop (E.cy.toNat + 1) ∧
      numrows E' = numrows E - 1 ∧ E'.cy = E.cy - 1 ∧ E'.cx = rowSize prev := by
  obtain ⟨n, hn, hn', hr⟩ := rowAt_some E E.cy row hrow
  obtain ⟨k, hk, hk', hp⟩ := rowAt_some E (E.cy - 1) prev hprev
  have hlt := lt_length_of_getElem? hr
  have hnk : n = k + 1 := by omega
  subst hnk
  refine ⟨_, editorDelChar_eq_join E k prev row hn hcx hp hr, ?_, ?_, ?_, ?_⟩
  · simp [hn']
  · simp [numrows]
    omega
  · simp [hn]
  · rfl

theorem C4_witness :
    rowAt (helloWorld 1 0) ((helloWorld 1 0).cy - 1) = some [104, 101, 108, 108, 111] ∧
    rowAt (helloWorld 1 0) (helloWorld 1 0).cy = some [119, 111, 114, 108, 100] ∧
    (helloWorld 1 0).cx = 0 ∧
    ∃ E', editorDelChar (helloWorld 1 0) = some E' ∧
      E'.row = (helloWorld 1 0).row.take ((helloWorld 1 0).cy.toNat - 1) ++
        ([104, 101, 108, 108, 111] ++ [119, 111, 114, 108, 100]) ::
          (helloWorld 1 0).row.drop ((helloWorld 1 0).cy.toNat + 1) ∧
      numrows E' = numrows (helloWorld 1 0) - 1 ∧ E'.cy = (helloWorld 1 0).cy - 1 ∧
      E'.cx = rowSize [104, 101, 108, 108, 111] :=
  ⟨by decide, by decide, by decide,
    C4_backspace_at_column_zero_joins (helloWorld 1 0) _ _ (by decide) (by decide) (by decide)⟩


/-! ## File round trip -/

theorem getlines_append_newline (r : List UInt8) (fp : List UInt8) (h : (10 : UInt8) ∉ r) :
    getlines (r ++ 10 :: fp) = (r ++ [10]) :: getlines fp := by
  induction r with
  | nil => simp [getlines]
  | cons c r ih =>
    have hc : c ≠ 10 := fun e => h (by simp [e])
    have hr : (10 : UInt8) ∉ r := fun e => h (by simp [e])
    simp [getlines, hc, ih hr]

theorem getlines_rowsToString (D : List erow) (h : ∀ r ∈ D, (10 : UInt8) ∉ r) :
    getlines (rowsToString D) = D.map (fun r => r ++ [10]) := by
  induction D with
  | nil => simp [rowsToString, getlines]
  | cons r D ih =>
    simp only [rowsToString, List.map_cons]
    rw [getlines_append_newline r _ (h r (by simp)), ih (fun r hr => h r (by simp [hr]))]

theorem stripEol_append_newline (r : List UInt8) (h10 : (10 : UInt8) ∉ r)
    (h13 : r.getLast? ≠ some 13) : stripEol (r ++ [10]) = r := by
  unfold stripEol
  rw [List.rdropWhile_concat_pos _ _ _ (by simp), List.rdropWhile_eq_self_iff]
  intro hl
  have hmem := List.getLast_mem hl
  have h1 : r.getLast hl ≠ 10 := fun e => h10 (e ▸ hmem)
  have h2 : r.getLast hl ≠ 13 := fun e => h13 (by rw [List.getLast?_eq_getLast r hl, e])
  simp [h1, h2]

theorem editorOpen_row (lines : List (List UInt8)) (E : editorConfig) :
    (lines.foldl (fun E line => { E with row := E.row ++ [stripEol line] }) E).row
      = E.row ++ lines.map stripEol := by
  induction lines generalizing E with
  | nil => simp
  | cons l lines ih => simp [List.foldl_cons, ih]

/-- Loading the serialisation of a document whose rows hold no newline byte and do not end
in a carriage return gives the rows of that document. -/
theorem editorOpen_editorRowsToString (E E0 : editorConfig)
    (h10 : ∀ r ∈ E.row, (10 : UInt8) ∉ r) (h13 : ∀ r ∈ E.row, r.getLast? ≠ some 13) :
    (editorOpen (editorRowsToString E) E0).row = E0.row ++ E.row := by
  unfold editorOpen editorRowsToString
  rw [editorOpen_row, getlines_rowsToString _ h10, List.map_map]
  congr 1
  conv_rhs => rw [← List.map_id E.row]
  apply List.map_congr_left
  intro r hr
  exact stripEol_append_newline r (h10 r hr) (h13 r hr)

/-- Claim C5 fails as stated: the document with the single row `"a\r"` holds no newline
byte, its serialisation is `"a\r\n"`, loading that strips the carriage return too, and the
serialisation of the loaded document is `"a\n"`. -/
theorem C5_counterexample :
    (∀ r ∈ crDocument.row, (10 : UInt8) ∉ r) ∧
    editorRowsToString crDocument = [97, 13, 10] ∧
    (editorOpen (editorRowsToString crDocument) (initEditor 26 80)).row = [[97]] ∧
    editorRowsToString (editorOpen (editorRowsToString crDocument) (initEditor 26 80))
      ≠ editorRowsToString crDocument := by
  decide

/-- Claim C5, amended: for every document in which no row holds a newline byte and no row
ends in a carriage return, serialising, loading into a fresh editor and serialising again
gives the first serialisation (the load gives back the very rows of the document). -/
theorem C5_serialize_load_roundtrip (E : editorConfig) (rows cols : Int)
    (h10 : ∀ r ∈ E.row, (10 : UInt8) ∉ r) (h13 : ∀ r ∈ E.row, r.getLast? ≠ some 13) :
    (editorOpen (editorRowsToString E) (initEditor rows cols)).row = E.row ∧
    editorRowsToString (editorOpen (editorRowsToString E) (initEditor rows cols))
      = editorRowsToString E := by
  have h := editorOpen_editorRowsToString E (initEditor rows cols) h10 h13
  have h' : (editorOpen (editorRowsToString E) (initEditor rows cols)).row = E.row := by
    rw [h]; rfl
  exact ⟨h', congrArg rowsToString h'⟩

theorem C5_witness :
    (∀ r ∈ (helloWorld 0 0).row, (10 : UInt8) ∉ r) ∧
    (∀ r ∈ (helloWorld 0 0).row, r.getLast? ≠ some 13) ∧
    (editorOpen (editorRowsToString (helloWorld 0 0)) (initEditor 26 80)).row
      = (helloWorld 0 0).row ∧
    editorRowsToString (editorOpen (editorRowsToString (helloWorld 0 0)) (initEditor 26 80))
      = editorRowsToString (helloWorld 0 0) :=
  ⟨by decide, by decide,
    C5_serialize_load_roundtrip (helloWorld 0 0) 26 80 (by decide) (by decide)⟩



/-! ## Selection -/

theorem rowAt_of_lt (E : editorConfig) (i : Int) (h0 : 0 ≤ i) (h1 : i < numrows E) :
    rowAt E i = some (E.row.getD i.toNat []) := by
  unfold numrows at h1
  have hlt : i.toNat < E.row.length := by omega
  simp [rowAt, h0, List.getD_eq_getElem?_getD, List.getElem?_eq_getElem hlt]

theorem selRange_le (E : editorConfig) : (selRange E).1 ≤ (selRange E).2.2.1 := by
  unfold selRange
  split
  · simp only; omega
  · simp only; omega

theorem selInterior_eq (E : editorConfig) (n k : Nat) (ab : abuf) (h : k + n ≤ E.row.length) :
    selInterior E (k : Int) n ab
      = some (ab ++ (((E.row.drop k).take n).map (fun r => r ++ [10])).flatten) := by
  induction n generalizing k ab with
  | zero => simp [selInterior]
  | succ n ih =>
    have hk : k < E.row.length := by omega
    have hrow := List.getElem?_eq_getElem hk
    have e1 : ((k : Int) + 1) = ((k + 1 : Nat) : Int) := by push_cast; rfl
    rw [selInterior, rowAt_natCast, hrow]
    simp only
    rw [e1, ih (k + 1) _ (by omega), drop_eq_cons_of_getElem? hrow]
    simp only [abAppend, List.take_succ_cons, List.map_cons, List.flatten_cons,
      List.append_assoc]

/-- Claim C6: `editorGetSelection` agrees with the reference definition `extractSpec` on
the normalised range: for an active selection whose normalised start column is not negative
it returns what `extractSpec` returns (the clipped substring of one row, or the start row's
suffix, a newline, the interior rows each followed by a newline, and the end row's clipped
prefix; nothing when `start_y < 0` or `end_y >= numrows` or the one-row range is empty), and
for an inactive selection it returns nothing. -/
theorem C6_editorGetSelection_eq_extractSpec (E : editorConfig)
    (hx : E.selecting = true → 0 ≤ (selRange E).2.1) :
    editorGetSelection E
      = some (if E.selecting then
          extractSpec E.row (selRange E).1 (selRange E).2.1 (selRange E).2.2.1
            (selRange E).2.2.2
        else none) := by
  unfold editorGetSelection
  by_cases hsel : E.selecting = true
  swap
  · simp [hsel]
  have hle := selRange_le E
  have hx' := hx hsel
  generalize selRange E = R at hle hx' ⊢
  obtain ⟨sy, sx, ey, ex⟩ := R
  simp only [hsel, Bool.not_true, Bool.false_eq_true, if_false, if_true] at hle hx' ⊢
  unfold extractSpec
  by_cases hg : sy < 0 ∨ ey ≥ numrows E
  · have hg' : sy < 0 ∨ ey ≥ (E.row.length : Int) := hg
    rw [if_pos hg, if_pos hg']
  have hg' : ¬ (sy < 0 ∨ ey ≥ (E.row.length : Int)) := hg
  rw [if_neg hg, if_neg hg']
  unfold numrows at hg
  have hsy : sy.toNat < E.row.length := by omega
  have hey : ey.toNat < E.row.length := by omega
  have hrs : rowAt E sy = some (E.row.getD sy.toNat []) := rowAt_of_lt E sy (by omega) (by unfold numrows; omega)
  have hre : rowAt E ey = some (E.row.getD ey.toNat []) := rowAt_of_lt E ey (by omega) (by unfold numrows; omega)
  by_cases hrow : sy = ey
  · rw [if_pos hrow, if_pos hrow, hrs]
    simp only
    split
    · rfl
    · rename_i hne
      rw [if_neg (by omega)]
      simp only [abAppend, columns, List.nil_append, rowSize] at hne ⊢
      rw [List.drop_take]
      congr 3
      split <;> omega
  · rw [if_neg hrow, if_neg hrow, hrs, hre]
    simp only
    have hlt : sy < ey := by omega
    rw [if_neg (by omega)]
    obtain ⟨k, hk⟩ : ∃ k : Nat, sy + 1 = k := ⟨(sy + 1).toNat, by omega⟩
    rw [hk, selInterior_eq E _ k _ (by omega)]
    simp only
    have hint : List.take (ey - ↑k).toNat (List.drop k E.row)
        = List.drop (sy.toNat + 1) (List.take ey.toNat E.row) := by
      rw [List.drop_take]
      have e1 : sy.toNat + 1 = k := by omega
      have e2 : (ey - ↑k).toNat = ey.toNat - k := by omega
      rw [e1, e2]
    rw [hint]
    generalize E.row.getD sy.toNat [] = first
    generalize E.row.getD ey.toNat [] = last
    generalize (List.map (fun r => r ++ [10])
      (List.drop (sy.toNat + 1) (List.take ey.toNat E.row))).flatten = mid
    have hA : (if rowSize first - sx > 0 then abAppend [] (List.drop sx.toNat first) else [])
        = List.drop sx.toNat first := by
      unfold rowSize
      split
      · rfl
      · exact (List.drop_eq_nil_of_le (by omega)).symm
    rw [hA]
    unfold rowSize
    by_cases hex : ex > 0
    · rw [if_pos hex]
      have hB : (if ex > (last.length : Int) then (last.length : Int) else ex).toNat
          = (min ex (last.length : Int)).toNat := by
        split <;> omega
      rw [hB]
      simp [abAppend]
    · rw [if_neg hex]
      have hB : (min ex (last.length : Int)).toNat = 0 := by omega
      rw [hB]
      simp [abAppend]

theorem C6_witness :
    ((selected 0 1 1 3).selecting = true → 0 ≤ (selRange (selected 0 1 1 3)).2.1) ∧
    editorGetSelection (selected 0 1 1 3)
      = some (if (selected 0 1 1 3).selecting then
          extractSpec (selected 0 1 1 3).row (selRange (selected 0 1 1 3)).1
            (selRange (selected 0 1 1 3)).2.1 (selRange (selected 0 1 1 3)).2.2.1
            (selRange (selected 0 1 1 3)).2.2.2
        else none) :=
  ⟨by decide, C6_editorGetSelection_eq_extractSpec (selected 0 1 1 3) (by decide)⟩

theorem selRange_swap (E : editorConfig) (ay ax cy cx : Int) :
    selRange { E with sel_start_y := ay, sel_start_x := ax, cy := cy, cx := cx }
      = selRange { E with sel_start_y := cy, sel_start_x := cx, cy := ay, cx := ax } := by
  unfold selRange
  simp only
  split <;> split <;> simp only [Prod.mk.injEq] <;> omega

theorem selInterior_congr (E1 E2 : editorConfig) (h : E1.row = E2.row) (i : Int) (n : Nat)
    (ab : abuf) : selInterior E1 i n ab = selInterior E2 i n ab := by
  induction n generalizing i ab with
  | zero => simp [selInterior]
  | succ n ih => simp only [selInterior, rowAt, h, ih]

theorem editorGetSelection_congr (E1 E2 : editorConfig) (hs : E1.selecting = E2.selecting)
    (hr : E1.row = E2.row) (hR : selRange E1 = selRange E2) :
    editorGetSelection E1 = editorGetSelection E2 := by
  have hI : selInterior E1 = selInterior E2 := by
    funext i n ab; exact selInterior_congr E1 E2 hr i n ab
  simp only [editorGetSelection, hs, hR, numrows, rowAt, hr, hI]

/-- Claim C7: selection normalisation is symmetric.  For every state and every two
positions `(ay, ax)` and `(cy, cx)`, `editorGetSelection` with the anchor at the first and
the cursor at the second returns the same result as with the two positions exchanged. -/
theorem C7_editorGetSelection_symmetric (E : editorConfig) (ay ax cy cx : Int) :
    editorGetSelection { E with sel_start_y := ay, sel_start_x := ax, cy := cy, cx := cx }
      = editorGetSelection
          { E with sel_start_y := cy, sel_start_x := cx, cy := ay, cx := ax } :=
  editorGetSelection_congr _ _ rfl rfl (selRange_swap E ay ax cy cx)

theorem delRowLoop_eq (n k : Nat) (E : editorConfig) (h : k + n ≤ E.row.length) :
    delRowLoop (k : Int) n E = { E with row := E.row.take k ++ E.row.drop (k + n) } := by
  induction n generalizing E with
  | zero => simp [delRowLoop]
  | succ n ih =>
    rw [delRowLoop, editorDelRow_natCast E k (by omega), ih _ (by simp; omega)]
    simp only [take_take_append _ _ _ (show k ≤ E.row.length by omega)]
    rw [drop_add_take_append _ _ k n (by omega), List.drop_drop]
    have : k + 1 + n = k + (n + 1) := by omega
    rw [this]

theorem editorDelRow_clipboard (at_ : Int) (E : editorConfig) :
    (editorDelRow at_ E).clipboard = E.clipboard := by
  unfold editorDelRow
  split <;> rfl

theorem delRowLoop_clipboard (at_ : Int) (n : Nat) (E : editorConfig) :
    (delRowLoop at_ n E).clipboard = E.clipboard := by
  induction n generalizing E with
  | zero => rfl
  | succ n ih => rw [delRowLoop, ih, editorDelRow_clipboard]

/-- Closed form of `editorDeleteSelection` for a range over several rows. -/
theorem editorDeleteSelection_eq_multi (E : editorConfig) (sy sx ey ex : Nat)
    (first last : erow) (hsel : E.selecting = true)
    (hR : selRange E = ((sy : Int), (sx : Int), (ey : Int), (ex : Int))) (hlt : sy < ey)
    (hfirst : E.row[sy]? = some first) (hlast : E.row[ey]? = some last)
    (hsx : sx ≤ first.length) (hex : ex ≤ last.length) :
    editorDeleteSelection E = some { E with
      row := E.row.take sy ++ (first.take sx ++ last.drop ex) :: E.row.drop (ey + 1),
      cy := sy, cx := sx, selecting := false } := by
  have hl1 := lt_length_of_getElem? hfirst
  have hl2 := lt_length_of_getElem? hlast
  unfold editorDeleteSelection
  simp only [hsel, hR, Bool.not_true, Bool.false_eq_true, if_false]
  rw [if_neg (by unfold numrows; omega), if_neg (by omega)]
  simp only [rowAt_natCast, hfirst, hlast]
  rw [if_neg (by unfold rowSize; omega), if_neg (by unfold rowSize; omega)]
  have e1 : ((sy : Int) + 1) = ((sy + 1 : Nat) : Int) := by push_cast; rfl
  have e2 : ((ey : Int) + 1 - ((sy + 1 : Nat) : Int)).toNat = ey - sy := by omega
  simp only [e1, e2, setRow, Int.toNat_ofNat, editorRowAppendString]
  rw [delRowLoop_eq _ _ _ (by simp; omega)]
  simp only [set_eq_take_cons_drop _ _ _ hl1]
  rw [take_succ_take_append _ _ _ _ (by omega)]
  have e3 : sy + 1 + (ey - sy) = sy + (ey - sy + 1) := by omega
  rw [e3, drop_add_take_append _ _ sy _ (by omega), List.drop_succ_cons, List.drop_drop]
  have e4 : sy + 1 + (ey - sy) = ey + 1 := by omega
  rw [e4]
  simp

/-- Claim C8: for an active selection over several rows (`0 <= start_y < end_y < numrows`)
whose columns lie inside their rows (`0 <= start_x <= size of row start_y`,
`0 <= end_x <= size of row end_y`), `editorDeleteSelection` keeps the rows before `start_y`,
replaces rows `start_y .. end_y` by the one row made of the first `start_x` bytes of the old
start row and the bytes of the old end row from `end_x`, moves the rows after `end_y` up so
that `numrows` drops by `end_y - start_y`, and puts the cursor at `(start_y, start_x)`. -/
theorem C8_editorDeleteSelection_multi_row (E : editorConfig) (first last : erow)
    (hsel : E.selecting = true)
    (hlt : (selRange E).1 < (selRange E).2.2.1)
    (hfirst : rowAt E (selRange E).1 = some first)
    (hlast : rowAt E (selRange E).2.2.1 = some last)
    (hsx0 : 0 ≤ (selRange E).2.1) (hsx : (selRange E).2.1 ≤ rowSize first)
    (hex0 : 0 ≤ (selRange E).2.2.2) (hex : (selRange E).2.2.2 ≤ rowSize last) :
    ∃ E', editorDeleteSelection E = some E' ∧
      E'.row = E.row.take (selRange E).1.toNat ++
        (first.take (selRange E).2.1.toNat ++ last.drop (selRange E).2.2.2.toNat) ::
          E.row.drop ((selRange E).2.2.1.toNat + 1) ∧
      numrows E' = numrows E - ((selRange E).2.2.1 - (selRange E).1) ∧
      E'.cy = (selRange E).1 ∧ E'.cx = (selRange E).2.1 := by
  obtain ⟨sy, hsy, hsy', hf⟩ := rowAt_some E _ first hfirst
  obtain ⟨ey, hey, hey', hl⟩ := rowAt_some E _ last hlast
  have hl2 := lt_length_of_getElem? hl
  unfold rowSize at hsx hex
  have hR : selRange E = ((sy : Int), (((selRange E).2.1.toNat : Nat) : Int), (ey : Int),
      (((selRange E).2.2.2.toNat : Nat) : Int)) := by
    rw [Int.toNat_of_nonneg hsx0, Int.toNat_of_nonneg hex0, ← hsy, ← hey]
  refine ⟨_, editorDeleteSelection_eq_multi E sy _ ey _ first last hsel hR (by omega) hf hl
    (by omega) (by omega), ?_, ?_, ?_, ?_⟩
  · simp only [hsy', hey']
  · simp only [numrows, List.length_append, List.length_take, List.length_cons,
      List.length_drop, hsy, hey]
    omega
  · exact hsy.symm
  · exact Int.toNat_of_nonneg hsx0

theorem C8_witness :
    (selected 0 1 1 3).selecting = true ∧
    (selRange (selected 0 1 1 3)).1 < (selRange (selected 0 1 1 3)).2.2.1 ∧
    rowAt (selected 0 1 1 3) (selRange (selected 0 1 1 3)).1
      = some [104, 101, 108, 108, 111] ∧
    rowAt (selected 0 1 1 3) (selRange (selected 0 1 1 3)).2.2.1
      = some [119, 111, 114, 108, 100] ∧
    0 ≤ (selRange (selected 0 1 1 3)).2.1 ∧
    (selRange (selected 0 1 1 3)).2.1 ≤ rowSize [104, 101, 108, 108, 111] ∧
    0 ≤ (selRange (selected 0 1 1 3)).2.2.2 ∧
    (selRange (selected 0 1 1 3)).2.2.2 ≤ rowSize [119, 111, 114, 108, 100] ∧
    ∃ E', editorDeleteSelection (selected 0 1 1 3) = some E' ∧
      E'.row = (selected 0 1 1 3).row.take (selRange (selected 0 1 1 3)).1.toNat ++
        (List.take (selRange (selected 0 1 1 3)).2.1.toNat [104, 101, 108, 108, 111] ++
          List.drop (selRange (selected 0 1 1 3)).2.2.2.toNat [119, 111, 114, 108, 100]) ::
          (selected 0 1 1 3).row.drop ((selRange (selected 0 1 1 3)).2.2.1.toNat + 1) ∧
      numrows E' = numrows (selected 0 1 1 3)
        - ((selRange (selected 0 1 1 3)).2.2.1 - (selRange (selected 0 1 1 3)).1) ∧
      E'.cy = (selRange (selected 0 1 1 3)).1 ∧ E'.cx = (selRange (selected 0 1 1 3)).2.1 :=
  ⟨by decide, by decide, by decide, by decide, by decide, by decide, by decide, by decide,
    C8_editorDeleteSelection_multi_row (selected 0 1 1 3) _ _ (by decide) (by decide)
      (by decide) (by decide) (by decide) (by decide) (by decide) (by decide)⟩

/-- Claim C9 fails as stated.  With the anchor and the cursor on the same position the
selection is active but empty: `editorDeleteSelection`, and so the paste that calls it,
returns at its guard `start_x >= end_x` and leaves the selection active.  With the cursor
on the virtual trailing line the guard `end_y >= numrows` returns as well, and the cursor
stays at the end of the range instead of moving to its start. -/
theorem C9_counterexample :
    (selected 0 0 0 0).selecting = true ∧
    editorDeleteSelection (selected 0 0 0 0) = some (selected 0 0 0 0) ∧
    keypressPaste (selected 0 0 0 0) = some (selected 0 0 0 0) ∧
    (selected 0 0 2 0).selecting = true ∧
    selRange (selected 0 0 2 0) = (0, 0, 2, 0) ∧
    editorDeleteSelection (selected 0 0 2 0) = some (selected 0 0 2 0) ∧
    (selected 0 0 2 0).cy = 2 := by
  decide

/-- Claim C9, amended: when a selection is active and its normalised range passes the guards
of `editorDeleteSelection` (`0 <= start_y`, `end_y < numrows`, and on a single row
`start_x < row.size` and `start_x < end_x`) with its columns inside their rows
(`0 <= start_x`; over several rows also `start_x <= size of row start_y` and
`0 <= end_x <= size of row end_y`), `editorDeleteSelection` returns a state in which the
selection is inactive and the cursor is at `(start_y, start_x)`; with an empty clipboard
that state is also the result of paste. -/
theorem C9_editorDeleteSelection_deactivates (E : editorConfig)
    (hsel : E.selecting = true)
    (hsy : 0 ≤ (selRange E).1) (hey : (selRange E).2.2.1 < numrows E)
    (hsx : 0 ≤ (selRange E).2.1)
    (hone : (selRange E).1 = (selRange E).2.2.1 →
      (selRange E).2.1 < rowSize (E.row.getD (selRange E).1.toNat []) ∧
      (selRange E).2.1 < (selRange E).2.2.2)
    (hmany : (selRange E).1 ≠ (selRange E).2.2.1 →
      (selRange E).2.1 ≤ rowSize (E.row.getD (selRange E).1.toNat []) ∧
      0 ≤ (selRange E).2.2.2 ∧
      (selRange E).2.2.2 ≤ rowSize (E.row.getD (selRange E).2.2.1.toNat [])) :
    ∃ E', editorDeleteSelection E = some E' ∧ E'.selecting = false ∧
      E'.cy = (selRange E).1 ∧ E'.cx = (selRange E).2.1 ∧
      (E.clipboard = none → keypressPaste E = some E') := by
  have hle := selRange_le E
  have key : ∃ E', editorDeleteSelection E = some E' ∧ E'.selecting = false ∧
      E'.cy = (selRange E).1 ∧ E'.cx = (selRange E).2.1 ∧ E'.clipboard = E.clipboard := by
    unfold editorDeleteSelection
    generalize selRange E = R at *
    obtain ⟨sy, sx, ey, ex⟩ := R
    simp only at hsy hey hsx hone hmany hle
    have hrs := rowAt_of_lt E sy hsy (by omega)
    have hre := rowAt_of_lt E ey (by omega) hey
    simp only [hsel, Bool.not_true, Bool.false_eq_true, if_false]
    rw [if_neg (by omega)]
    by_cases hrow : sy = ey
    · obtain ⟨h1, h2⟩ := hone hrow
      rw [if_pos hrow, hrs]
      simp only
      rw [if_neg (by omega), if_neg (by omega)]
      exact ⟨_, rfl, rfl, rfl, rfl, rfl⟩
    · obtain ⟨h1, h2, h3⟩ := hmany hrow
      rw [if_neg hrow, hrs, hre]
      simp only
      rw [if_neg (by omega), if_neg (by omega)]
      refine ⟨_, rfl, rfl, rfl, rfl, ?_⟩
      simp only [delRowLoop_clipboard, setRow]
  obtain ⟨E', h1, h2, h3, h4, h5⟩ := key
  refine ⟨E', h1, h2, h3, h4, fun hc => ?_⟩
  unfold keypressPaste
  rw [if_pos hsel, h1]
  simp only [h5, hc]

theorem C9_witness :
    (selected 0 1 1 3).selecting = true ∧
    0 ≤ (selRange (selected 0 1 1 3)).1 ∧
    (selRange (selected 0 1 1 3)).2.2.1 < numrows (selected 0 1 1 3) ∧
    0 ≤ (selRange (selected 0 1 1 3)).2.1 ∧
    (∃ E', editorDeleteSelection (selected 0 1 1 3) = some E' ∧ E'.selecting = false ∧
      E'.cy = (selRange (selected 0 1 1 3)).1 ∧ E'.cx = (selRange (selected 0 1 1 3)).2.1 ∧
      ((selected 0 1 1 3).clipboard = none → keypressPaste (selected 0 1 1 3) = some E')) :=
  ⟨by decide, by decide, by decide, by decide,
    C9_editorDeleteSelection_deactivates (selected 0 1 1 3) (by decide) (by decide)
      (by decide) (by decide) (by decide) (by decide)⟩

/-! ## Copy and paste -/

/-- The paste loop returns a state only when it meets a NUL byte inside the block: on a
block without a NUL byte it reads past the end of the block. -/
theorem pasteLoop_eq_none_of_no_nul (block : List UInt8) (E : editorConfig)
    (h : (0 : UInt8) ∉ block) : pasteLoop block E = none := by
  induction block generalizing E with
  | nil => rfl
  | cons c s ih =>
    have hc : c ≠ 0 := fun e => h (by simp [e])
    have hs : (0 : UInt8) ∉ s := fun e => h (by simp [e])
    rw [pasteLoop, if_neg hc]
    split
    · cases editorInsertNewline E with
      | none => rfl
      | some E1 => exact ih E1 hs
    · cases editorInsertChar c E with
      | none => rfl
      | some E1 => exact ih E1 hs

/-- Claim C10 at the specification's scenario: on `["hello", "world"]` with columns `[0, 3)`
of row 0 selected, copy stores the block `"hel"` returned by `editorGetSelection`, three
bytes with no NUL behind them; after the cursor has moved to row 1, column 0, the paste loop
inserts those bytes and then reads the byte behind the block, so paste has no defined
result.  Had the block ended in a NUL byte, the same paste would give `"helworld"` with the
cursor at column 3. -/
theorem C10_copy_then_paste_reads_past_clipboard :
    (keypressCopy (selected 0 0 0 3)).map (fun E => E.clipboard)
      = some (some [104, 101, 108]) ∧
    (keypressCopy (selected 0 0 0 3)).bind
      (fun E => keypressPaste { E with cy := 1, cx := 0 }) = none ∧
    (keypressPaste { helloWorld 1 0 with clipboard := some [104, 101, 108, 0] }).map
        (fun E => (E.row, E.cy, E.cx))
      = some ([[104, 101, 108, 108, 111], [104, 101, 108, 119, 111, 114, 108, 100]], 1, 3) := by
  decide

/-! ## Case-insensitive search -/

theorem cstring_eq_self (chars : List UInt8) (h : (0 : UInt8) ∉ chars) :
    cstring chars = chars := by
  unfold cstring
  rw [List.takeWhile_eq_self_iff]
  intro c hc
  have : c ≠ 0 := fun e => h (e ▸ hc)
  simpa using this

theorem needleAt_iff (h n : List UInt8) : needleAt h n = true ↔ occursAt h n 0 := by
  unfold occursAt
  induction n generalizing h with
  | nil => simp [needleAt]
  | cons b n ih =>
    cases h with
    | nil => simp [needleAt]
    | cons a h =>
      have ih' := ih h
      simp only [List.drop_zero] at ih' ⊢
      simp only [needleAt, List.length_cons, List.take_succ_cons, List.map_cons,
        List.cons.injEq]
      by_cases hab : tolower a = tolower b
      · simp [hab, ih']
      · simp [hab]

theorem occursAt_cons_succ (a : UInt8) (hs q : List UInt8) (j : Nat) :
    occursAt (a :: hs) q (j + 1) ↔ occursAt hs q j := by
  unfold occursAt
  simp

theorem not_occursAt_nil (b : UInt8) (n : List UInt8) (j : Nat) : ¬ occursAt [] (b :: n) j := by
  unfold occursAt
  simp

/-- The function `strcasestr_impl` returns the offset of the leftmost occurrence of the
needle, letter case ignored. -/
theorem strcasestr_impl_eq_some (text q : List UInt8) (i : Nat)
    (h : strcasestr_impl text q = some i) : isLeftmost text q i := by
  induction text generalizing i with
  | nil =>
    cases q with
    | nil =>
      simp only [strcasestr_impl, Option.some.injEq] at h
      subst h
      exact ⟨by simp [occursAt], fun j hj => by omega⟩
    | cons b n => simp [strcasestr_impl] at h
  | cons a hs ih =>
    cases q with
    | nil =>
      simp only [strcasestr_impl, Option.some.injEq] at h
      subst h
      exact ⟨by simp [occursAt], fun j hj => by omega⟩
    | cons b n =>
      rw [strcasestr_impl] at h
      split at h
      · rename_i hc
        simp only [Option.some.injEq] at h
        subst h
        exact ⟨(needleAt_iff _ _).mp hc.2, fun j hj => by omega⟩
      · rename_i hc
        cases hrec : strcasestr_impl hs (b :: n) with
        | none => rw [hrec] at h; simp at h
        | some k =>
          rw [hrec] at h
          simp only [Option.map_some', Option.some.injEq] at h
          subst h
          obtain ⟨h1, h2⟩ := ih k hrec
          refine ⟨(occursAt_cons_succ a hs _ k).mpr h1, fun j hj => ?_⟩
          cases j with
          | zero =>
            intro h0
            have hn := (needleAt_iff (a :: hs) (b :: n)).mpr h0
            apply hc
            refine ⟨?_, hn⟩
            unfold occursAt at h0
            simp only [List.drop_zero, List.length_cons, List.take_succ_cons, List.map_cons,
              List.cons.injEq] at h0
            exact h0.1
          | succ j =>
            rw [occursAt_cons_succ]
            exact h2 j (by omega)

/-- The function `strcasestr_impl` returns `NULL` only when the needle occurs nowhere. -/
theorem strcasestr_impl_eq_none (text q : List UInt8) (h : strcasestr_impl text q = none)
    (j : Nat) : ¬ occursAt text q j := by
  induction text generalizing j with
  | nil =>
    cases q with
    | nil => simp [strcasestr_impl] at h
    | cons b n => exact not_occursAt_nil b n j
  | cons a hs ih =>
    cases q with
    | nil => simp [strcasestr_impl] at h
    | cons b n =>
      rw [strcasestr_impl] at h
      split at h
      · simp at h
      · rename_i hc
        have hrec : strcasestr_impl hs (b :: n) = none := by
          cases hr : strcasestr_impl hs (b :: n) with
          | none => rfl
          | some k => rw [hr] at h; simp at h
        cases j with
        | zero =>
          intro h0
          have hn := (needleAt_iff (a :: hs) (b :: n)).mpr h0
          apply hc
          refine ⟨?_, hn⟩
          unfold occursAt at h0
          simp only [List.drop_zero, List.length_cons, List.take_succ_cons, List.map_cons,
            List.cons.injEq] at h0
          exact h0.1
        | succ j =>
          rw [occursAt_cons_succ]
          exact ih hrec j

theorem strcasestr_impl_isSome (text q : List UInt8) :
    (strcasestr_impl text q).isSome = hasOccurrence text q := by
  unfold hasOccurrence
  cases h : strcasestr_impl text q with
  | none =>
    have := strcasestr_impl_eq_none text q h
    simp only [Option.isSome_none]
    symm
    rw [Bool.eq_false_iff]
    intro hany
    rw [List.any_eq_true] at hany
    obtain ⟨i, _, hi⟩ := hany
    exact this i (of_decide_eq_true hi)
  | some i =>
    obtain ⟨h1, h2⟩ := strcasestr_impl_eq_some text q i h
    simp only [Option.isSome_some]
    symm
    rw [List.any_eq_true]
    refine ⟨i, ?_, decide_eq_true h1⟩
    rw [List.mem_range]
    by_contra hlt
    have hq : q = [] := by
      unfold occursAt at h1
      rw [List.drop_eq_nil_of_le (by omega)] at h1
      simpa using h1.symm
    exact h2 0 (by omega) (by simp [occursAt, hq])

/-! ## The search callback -/

theorem wrap_eq_emod (n : Nat) (c dir : Int) (hn : 0 < n) (hdir : dir = 1 ∨ dir = -1)
    (hc : (0 ≤ c ∧ c < n) ∨ (c = -1 ∧ dir = 1)) :
    (if c + dir = -1 then (n : Int) - 1 else if c + dir = (n : Int) then 0 else c + dir)
      = (c + dir) % (n : Int) := by
  by_cases h1 : c + dir = -1
  · rw [if_pos h1, h1]
    have : (-1 : Int) = ((n : Int) - 1) + (-1) * (n : Int) := by ring
    rw [this, Int.add_mul_emod_self, Int.emod_eq_of_lt (by omega) (by omega)]
  · rw [if_neg h1]
    by_cases h2 : c + dir = (n : Int)
    · rw [if_pos h2, h2, Int.emod_self]
    · rw [if_neg h2, Int.emod_eq_of_lt (by omega) (by omega)]

theorem findLoop_eq (query : List UInt8) (E : editorConfig) (dir : Int)
    (hn : 0 < E.row.length) (hdir : dir = 1 ∨ dir = -1) (m : Nat) (c : Int)
    (hc : (0 ≤ c ∧ c < (E.row.length : Int)) ∨ (c = -1 ∧ dir = 1)) :
    findLoop query E dir m c
      = some ((((List.range m).map
            (fun (k : Nat) => (c + ((k : Int) + 1) * dir) % (E.row.length : Int))).find?
            (fun r => (strcasestr_impl (cstring (E.row.getD r.toNat [])) query).isSome)).map
          (fun r => (r,
            (((strcasestr_impl (cstring (E.row.getD r.toNat [])) query).getD 0 : Nat) : Int)))) := by
  induction m generalizing c with
  | zero => simp [findLoop]
  | succ m ih =>
    have hpos : (0 : Int) < (E.row.length : Int) := by omega
    have hr0 : 0 ≤ (c + dir) % (E.row.length : Int) := Int.emod_nonneg _ (by omega)
    have hr1 : (c + dir) % (E.row.length : Int) < (E.row.length : Int) :=
      Int.emod_lt_of_pos _ hpos
    unfold findLoop
    simp only [numrows]
    rw [wrap_eq_emod E.row.length c dir hn hdir hc, rowAt_of_lt E _ hr0 hr1]
    rw [List.range_succ_eq_map, List.map_cons, List.map_map, List.find?_cons]
    have hf0 : (c + (((0 : Nat) : Int) + 1) * dir) % (E.row.length : Int)
        = (c + dir) % (E.row.length : Int) := by simp
    rw [hf0]
    simp only
    cases hs : strcasestr_impl (cstring (E.row.getD ((c + dir) % (E.row.length : Int)).toNat []))
        query with
    | some off => simp only [hs, Option.isSome_some, if_true, Option.map_some', Option.getD_some]
    | none =>
      simp only [hs, Option.isSome_none, Bool.false_eq_true, if_false]
      rw [ih _ (Or.inl ⟨hr0, hr1⟩)]
      congr 3
      apply List.map_congr_left
      intro k _
      simp only [Function.comp, Nat.succ_eq_add_one, Nat.cast_add, Nat.cast_one]
      rw [Int.emod_add_emod]
      congr 1
      ring

theorem findResolve_spec (key : Int) (fs : findState) (n : Int)
    (hlm : -1 ≤ fs.last_match ∧ fs.last_match < n) :
    ((findResolve key fs).direction = 1 ∨ (findResolve key fs).direction = -1) ∧
    ((0 ≤ (findResolve key fs).last_match ∧ (findResolve key fs).last_match < n) ∨
      ((findResolve key fs).last_match = -1 ∧ (findResolve key fs).direction = 1)) := by
  unfold findResolve
  simp only
  split_ifs <;> simp_all <;> omega

theorem getD_no_nul (rows : List erow) (hnul : ∀ row ∈ rows, (0 : UInt8) ∉ row) (k : Nat) :
    (0 : UInt8) ∉ rows.getD k [] := by
  rw [List.getD_eq_getElem?_getD]
  cases h : rows[k]? with
  | none => simp
  | some row =>
    simp only [Option.getD_some]
    obtain ⟨hlt, heq⟩ := List.getElem?_eq_some.mp h
    exact hnul row (heq ▸ List.getElem_mem ..)

/-- The scan of `editorFindCallback` in terms of the values `findResolve` leaves in
`last_match` and `direction`. -/
theorem editorFindCallback_scan_resolved (E : editorConfig) (query : List UInt8) (key : Int)
    (fs : findState) (hnul : ∀ row ∈ E.row, (0 : UInt8) ∉ row)
    (hlm : -1 ≤ fs.last_match ∧ fs.last_match < numrows E)
    (hkey : key ≠ ENTER_KEY ∧ key ≠ ESC_KEY) :
    ∃ fs' E', editorFindCallback query key fs E = some (fs', E') ∧
      match (scanOrder (findResolve key fs).last_match (findResolve key fs).direction
          E.row.length).find? (fun r => hasOccurrence (E.row.getD r.toNat []) query) with
      | some r =>
        E'.cy = r ∧ fs'.last_match = r ∧
        ∃ col : Nat, E'.cx = col ∧ isLeftmost (E.row.getD r.toNat []) query col
      | none => E'.cx = E.cx ∧ E'.cy = E.cy := by
  obtain ⟨hdir, hc⟩ := findResolve_spec key fs (numrows E) hlm
  have hP : (fun r : Int => hasOccurrence (E.row.getD r.toNat []) query)
      = (fun r : Int => (strcasestr_impl (cstring (E.row.getD r.toNat [])) query).isSome) := by
    funext r
    rw [cstring_eq_self _ (getD_no_nul E.row hnul _), strcasestr_impl_isSome]
  unfold editorFindCallback
  simp only
  rw [if_neg (by omega)]
  by_cases hn : 0 < E.row.length
  · have hloop := findLoop_eq query { E with highlight_query := some query }
      (findResolve key fs).direction hn hdir E.row.length (findResolve key fs).last_match hc
    simp only [numrows, Int.toNat_ofNat] at hloop ⊢
    rw [hloop, hP]
    unfold scanOrder
    cases hfind : ((List.range E.row.length).map
        (fun (k : Nat) => ((findResolve key fs).last_match
          + ((k : Int) + 1) * (findResolve key fs).direction) % (E.row.length : Int))).find?
        (fun r => (strcasestr_impl (cstring (E.row.getD r.toNat [])) query).isSome) with
    | none => exact ⟨_, _, rfl, rfl, rfl⟩
    | some r =>
      have hr := List.find?_some hfind
      simp only at hr
      obtain ⟨off, hoff⟩ := Option.isSome_iff_exists.mp hr
      refine ⟨_, _, rfl, rfl, rfl, off, ?_, ?_⟩
      · simp only [hoff, Option.getD_some]
      · have := strcasestr_impl_eq_some _ _ _ hoff
        rwa [cstring_eq_self _ (getD_no_nul E.row hnul _)] at this
  · have h0 : E.row.length = 0 := by omega
    simp only [numrows, h0, Int.toNat_ofNat, findLoop, scanOrder, List.range_zero, List.map_nil,
      List.find?_nil]
    exact ⟨_, _, rfl, rfl, rfl⟩

/-- The key dispatch of `editorFindCallback` leaves `last_match` at `searchStart` and
`direction` at `searchDirection`. -/
theorem findResolve_eq (key : Int) (fs : findState) :
    findResolve key fs
      = { last_match := searchStart key fs.last_match,
          direction := searchDirection key fs.last_match } := by
  unfold findResolve searchStart searchDirection ARROW_RIGHT ARROW_DOWN ARROW_LEFT ARROW_UP
  simp only
  split_ifs <;> simp_all
  omega

/-- Claim C11 fails as stated.  On `["ab", "c", "abc"]` typing `a` matches row 0 and leaves
`last_match = 0`, `direction = 1`.  Typing `b` next (query `"ab"`) is a keystroke other than
Enter and Escape; the cyclic order from `last_match = 0` is rows 1, 2, 0, whose first row
containing `"ab"` is row 2, but the callback resets `last_match` to -1 for a key that is not
an arrow and puts the cursor on row 0. -/
theorem C11_counterexample :
    (editorFindCallback [97] 97 findInit abDocument).map
      (fun r => (r.1.last_match, r.1.direction, r.2.cy, r.2.cx)) = some (0, 1, 0, 0) ∧
    scanOrder 0 1 abDocument.row.length = [1, 2, 0] ∧
    (scanOrder 0 1 abDocument.row.length).find?
      (fun r => hasOccurrence (abDocument.row.getD r.toNat []) [97, 98]) = some 2 ∧
    ((editorFindCallback [97] 97 findInit abDocument).bind
        (fun r => editorFindCallback [97, 98] 98 r.1 r.2)).map
      (fun r => (r.1.last_match, r.2.cy, r.2.cx)) = some (0, 0, 0) := by
  exact ⟨by decide, by decide, by decide, by decide⟩

/-- Claim C11, amended: for a document whose rows hold no NUL byte, a search state with
`last_match` in `[-1, numrows)` and a key other than Enter and Escape, `editorFindCallback`
returns and examines the rows in the cyclic order `m + k * d (mod numrows)`,
`k = 1 .. numrows`, where the key sets `m` and `d`: an arrow key keeps `m = last_match` and
gives `d = +1` (right, down) or `d = -1` (left, up), with `d = +1` whenever `last_match` is
-1; any other key gives `m = -1` and `d = +1`.  When some row of that order contains the
query, letter case ignored, the cursor row and `last_match` become the first such row and
the cursor column the leftmost occurrence in it; when no row contains the query, `cx` and
`cy` are unchanged. -/
theorem C11_editorFindCallback_scan_order (E : editorConfig) (query : List UInt8)
    (key : Int) (fs : findState) (hnul : ∀ row ∈ E.row, (0 : UInt8) ∉ row)
    (hlm : -1 ≤ fs.last_match ∧ fs.last_match < numrows E)
    (hkey : key ≠ ENTER_KEY ∧ key ≠ ESC_KEY) :
    ∃ fs' E', editorFindCallback query key fs E = some (fs', E') ∧
      match (scanOrder (searchStart key fs.last_match) (searchDirection key fs.last_match)
          E.row.length).find? (fun r => hasOccurrence (E.row.getD r.toNat []) query) with
      | some r =>
        E'.cy = r ∧ fs'.last_match = r ∧
        ∃ col : Nat, E'.cx = col ∧ isLeftmost (E.row.getD r.toNat []) query col
      | none => E'.cx = E.cx ∧ E'.cy = E.cy := by
  have h := editorFindCallback_scan_resolved E query key fs hnul hlm hkey
  rw [findResolve_eq] at h
  exact h

theorem C11_witness :
    (∀ row ∈ (helloWorld 0 0).row, (0 : UInt8) ∉ row) ∧
    (-1 ≤ searchedRow0.last_match ∧ searchedRow0.last_match < numrows (helloWorld 0 0)) ∧
    (ARROW_UP ≠ ENTER_KEY ∧ ARROW_UP ≠ ESC_KEY) ∧
    scanOrder (searchStart ARROW_UP searchedRow0.last_match)
      (searchDirection ARROW_UP searchedRow0.last_match) (helloWorld 0 0).row.length
      = [1, 0] ∧
    (editorFindCallback [79] ARROW_UP searchedRow0 (helloWorld 0 0)).map
      (fun r => (r.1.last_match, r.2.cy, r.2.cx)) = some (1, 1, 1) ∧
    ∃ fs' E', editorFindCallback [79] ARROW_UP searchedRow0 (helloWorld 0 0)
        = some (fs', E') ∧
      match (scanOrder (searchStart ARROW_UP searchedRow0.last_match)
          (searchDirection ARROW_UP searchedRow0.last_match)
          (helloWorld 0 0).row.length).find?
          (fun r => hasOccurrence ((helloWorld 0 0).row.getD r.toNat []) [79]) with
      | some r =>
        E'.cy = r ∧ fs'.last_match = r ∧
        ∃ col : Nat, E'.cx = col ∧ isLeftmost ((helloWorld 0 0).row.getD r.toNat []) [79] col
      | none => E'.cx = (helloWorld 0 0).cx ∧ E'.cy = (helloWorld 0 0).cy :=
  ⟨by decide, by decide, by decide, by decide, by decide,
    C11_editorFindCallback_scan_order (helloWorld 0 0) [79] ARROW_UP searchedRow0
      (by decide) (by decide) (by decide)⟩

/-! ## Search scenarios -/

/-- Claim C12 fails as stated: after the first search has put the cursor on column 0 of
`"abcABCabc"`, advancing forward with the right-arrow key searches row 0 again from its
first byte and puts the cursor on column 0, not on column 6. -/
theorem C12_counterexample :
    ((editorFindCallback [97, 98, 99] 99 findInit abcDocument).bind
        (fun r => editorFindCallback [97, 98, 99] ARROW_RIGHT r.1 r.2)).map
      (fun r => (r.2.cy, r.2.cx)) = some (0, 0) ∧
    ((editorFindCallback [97, 98, 99] 99 findInit abcDocument).bind
        (fun r => editorFindCallback [97, 98, 99] ARROW_RIGHT r.1 r.2)).map
      (fun r => r.2.cx) ≠ some 6 := by
  decide

/-- Claim C12, amended: on the document `["abcABCabc"]` with the query `"abc"` in a fresh
search session, the first search puts the cursor at column 0, advancing forward puts it at
column 0 of the same row again (the search steps through rows and takes the leftmost
occurrence of the row it stops at), and advancing forward once more puts it at column 0. -/
theorem C12_forward_advances_stay_at_column_zero :
    (editorFindCallback [97, 98, 99] 99 findInit abcDocument).map
      (fun r => (r.1.last_match, r.2.cy, r.2.cx)) = some (0, 0, 0) ∧
    ((editorFindCallback [97, 98, 99] 99 findInit abcDocument).bind
        (fun r => editorFindCallback [97, 98, 99] ARROW_RIGHT r.1 r.2)).map
      (fun r => (r.1.last_match, r.2.cy, r.2.cx)) = some (0, 0, 0) ∧
    (((editorFindCallback [97, 98, 99] 99 findInit abcDocument).bind
        (fun r => editorFindCallback [97, 98, 99] ARROW_RIGHT r.1 r.2)).bind
        (fun r => editorFindCallback [97, 98, 99] ARROW_RIGHT r.1 r.2)).map
      (fun r => (r.1.last_match, r.2.cy, r.2.cx)) = some (0, 0, 0) := by
  decide

/-- Claim C13 at two failing inputs.  First: in a window of 20 columns, on a row whose only
`'x'` is at column 24, the search session "type `x`, press Escape" starts with the cursor at
(0, 0) and both offsets 0; the match moves the cursor to column 24, the next screen refresh
scrolls `coloff` to 7, and the cancel restores `cx`, `cy` and `rowoff` but leaves `coloff`
at 7.  Second: with the cursor at column 10 and `coloff = 8`, a match at column 2 scrolls
`coloff` to 2; after the cancel the cursor is back at column 10 but `coloff` is 2, and the
`editorScroll` of the next refresh keeps it at 2. -/
theorem C13_cancelled_search_keeps_coloff :
    (longRow.cx, longRow.cy, longRow.rowoff, longRow.coloff) = (0, 0, 0, 0) ∧
    (editorFind [120, ESC_KEY] findInit longRow).map
      (fun r => (r.2.cx, r.2.cy, r.2.rowoff, r.2.coloff)) = some (0, 0, 0, 7) ∧
    (scrolledRow.cx, scrolledRow.cy, scrolledRow.rowoff, scrolledRow.coloff) = (10, 0, 0, 8) ∧
    (editorScroll scrolledRow).coloff = 8 ∧
    (editorFind [120, ESC_KEY] findInit scrolledRow).map
      (fun r => (r.2.cx, r.2.cy, r.2.rowoff, r.2.coloff)) = some (10, 0, 0, 2) ∧
    (editorFind [120, ESC_KEY] findInit scrolledRow).map
      (fun r => (editorScroll r.2).coloff) = some 2 := by
  exact ⟨by decide, by decide, by decide, by decide, by decide, by decide⟩

/-! ## Stale columns -/

/-- Claim C20 at a failing input: with the cursor at the end of the last row `"world"`
(row 1, column 5) and no selection, the Cursor invariant holds; cut deletes the row and
leaves the cursor at (1, 5), which is now the virtual trailing line with a non-zero column,
so the invariant is broken, and typing a byte there copies bytes outside the new row. -/
theorem C20_cut_line_breaks_cursorInv :
    cursorInv (helloWorld 1 5) ∧ (helloWorld 1 5).selecting = false ∧
    (helloWorld 1 5).cy < numrows (helloWorld 1 5) ∧
    (keypressCut (helloWorld 1 5)).map (fun E => (E.row, E.cy, E.cx))
      = some ([[104, 101, 108, 108, 111]], 1, 5) ∧
    (keypressCut (helloWorld 1 5)).map (fun E => decide (cursorInv E)) = some false ∧
    (keypressCut (helloWorld 1 5)).bind (editorInsertChar 97) = none := by
  decide

/-- Claim C19 at two failing inputs.  First: the anchor is set at the end of `"world"`
(row 1, column 5), a backspace shortens the row to `"worl"` and the cursor moves up to
(0, 4); the normalised range is (0, 4)–(1, 5) with `end_x = 5` above the size 4 of the end
row.  Second: the anchor is set at the end of `"hello"` (row 0, column 5), a backspace
shortens the row and the cursor moves down to (1, 4); the range is (0, 5)–(1, 4) with
`start_x = 5` above the size 4 of the start row.  In both states `editorDeleteSelection`
passes its guards and writes to the rows with the stale column: the remainder of the end
row gets the length `4 - 5`, or the start row is given the size 5; it is not a no-op. -/
theorem C19_stale_column_is_not_a_noop :
    ((editorDelChar (selected 1 5 1 5)).bind (editorMoveCursor ARROW_UP)).map
      (fun E => (E.row, E.selecting, selRange E))
      = some ([[104, 101, 108, 108, 111], [119, 111, 114, 108]], true, (0, 4, 1, 5)) ∧
    (((editorDelChar (selected 1 5 1 5)).bind (editorMoveCursor ARROW_UP)).bind
      editorDeleteSelection) = none ∧
    ((editorDelChar (selected 0 5 0 5)).bind (editorMoveCursor ARROW_DOWN)).map
      (fun E => (E.row, E.selecting, selRange E))
      = some ([[104, 101, 108, 108], [119, 111, 114, 108, 100]], true, (0, 5, 1, 4)) ∧
    (((editorDelChar (selected 0 5 0 5)).bind (editorMoveCursor ARROW_DOWN)).bind
      editorDeleteSelection) = none := by
  exact ⟨by decide, by decide, by decide, by decide⟩

/-! ## Viewport -/

theorem lineNumberLoop_fuel (fuel m : Nat) (digits : Int) (h : m ≤ fuel) :
    lineNumberLoop fuel (m : Int) digits = digits + (Nat.log 10 m : Nat) := by
  induction fuel generalizing m digits with
  | zero =>
    have : m = 0 := by omega
    subst this
    simp [lineNumberLoop]
  | succ fuel ih =>
    unfold lineNumberLoop
    by_cases h10 : 10 ≤ m
    · rw [if_pos (by omega)]
      have e : ((m : Int) / 10) = ((m / 10 : Nat) : Int) := by push_cast; rfl
      rw [e, ih (m / 10) _ (by omega), Nat.log_of_one_lt_of_le (by omega) h10]
      push_cast
      omega
    · rw [if_neg (by omega), Nat.log_of_lt (by omega)]
      simp

/-- The gutter is one column wider than the number of decimal digits of
`max(numrows, 1)`: the loop of `editorLineNumberWidth` ends within its fuel. -/
theorem editorLineNumberWidth_eq_log (E : editorConfig) :
    editorLineNumberWidth E = (Nat.log 10 (max E.row.length 1) : Nat) + 2 := by
  unfold editorLineNumberWidth numrows
  by_cases h : 0 < E.row.length
  · have hm : max E.row.length 1 = E.row.length := by omega
    simp only [gt_iff_lt, Int.ofNat_pos, h, if_true, Int.toNat_ofNat, hm]
    rw [lineNumberLoop_fuel _ _ _ (le_refl _)]
    omega
  · have h0 : E.row.length = 0 := by omega
    simp [h0, lineNumberLoop]

theorem editorLineNumberWidth_congr (E1 E2 : editorConfig) (h : E1.row = E2.row) :
    editorLineNumberWidth E1 = editorLineNumberWidth E2 := by
  unfold editorLineNumberWidth numrows
  rw [h]

/-- Claim C14: when the cursor and the offsets are not negative, the screen has at least
one row and the text area (`screencols - editorLineNumberWidth()`) at least one column,
after `editorScroll` the offsets are still not negative, `rowoff <= cy < rowoff + screenrows`
and `coloff <= cx < coloff + available_width`; the cursor and the sizes are untouched, and
an offset whose range already held the cursor is unchanged. -/
theorem C14_editorScroll_bounds (E : editorConfig)
    (hcx : 0 ≤ E.cx) (hcy : 0 ≤ E.cy) (hro : 0 ≤ E.rowoff) (hco : 0 ≤ E.coloff)
    (hsr : 1 ≤ E.screenrows) (hw : 1 ≤ E.screencols - editorLineNumberWidth E) :
    0 ≤ (editorScroll E).rowoff ∧ 0 ≤ (editorScroll E).coloff ∧
    (editorScroll E).rowoff ≤ (editorScroll E).cy ∧
    (editorScroll E).cy < (editorScroll E).rowoff + (editorScroll E).screenrows ∧
    (editorScroll E).coloff ≤ (editorScroll E).cx ∧
    (editorScroll E).cx < (editorScroll E).coloff +
      ((editorScroll E).screencols - editorLineNumberWidth (editorScroll E)) ∧
    (editorScroll E).cx = E.cx ∧ (editorScroll E).cy = E.cy ∧
    (E.rowoff ≤ E.cy ∧ E.cy < E.rowoff + E.screenrows →
      (editorScroll E).rowoff = E.rowoff) ∧
    (E.coloff ≤ E.cx ∧ E.cx < E.coloff + (E.screencols - editorLineNumberWidth E) →
      (editorScroll E).coloff = E.coloff) := by
  have hrow : (editorScroll E).row = E.row := by
    unfold editorScroll
    simp only
    split_ifs <;> rfl
  rw [editorLineNumberWidth_congr (editorScroll E) E hrow]
  generalize hW : editorLineNumberWidth E = W at hw
  have hW1 : ∀ r : Int, editorLineNumberWidth { E with rowoff := r } = W := fun r => hW
  unfold editorScroll
  simp only
  split_ifs <;> simp_all <;> omega

theorem C14_witness :
    0 ≤ (helloWorld 30 100).cx ∧ 0 ≤ (helloWorld 30 100).cy ∧
    0 ≤ (helloWorld 30 100).rowoff ∧ 0 ≤ (helloWorld 30 100).coloff ∧
    1 ≤ (helloWorld 30 100).screenrows ∧
    1 ≤ (helloWorld 30 100).screencols - editorLineNumberWidth (helloWorld 30 100) ∧
    (0 ≤ (editorScroll (helloWorld 30 100)).rowoff ∧
     0 ≤ (editorScroll (helloWorld 30 100)).coloff ∧
     (editorScroll (helloWorld 30 100)).rowoff ≤ (editorScroll (helloWorld 30 100)).cy ∧
     (editorScroll (helloWorld 30 100)).cy <
       (editorScroll (helloWorld 30 100)).rowoff + (editorScroll (helloWorld 30 100)).screenrows ∧
     (editorScroll (helloWorld 30 100)).coloff ≤ (editorScroll (helloWorld 30 100)).cx ∧
     (editorScroll (helloWorld 30 100)).cx < (editorScroll (helloWorld 30 100)).coloff +
       ((editorScroll (helloWorld 30 100)).screencols -
         editorLineNumberWidth (editorScroll (helloWorld 30 100))) ∧
     (editorScroll (helloWorld 30 100)).cx = (helloWorld 30 100).cx ∧
     (editorScroll (helloWorld 30 100)).cy = (helloWorld 30 100).cy ∧
     ((helloWorld 30 100).rowoff ≤ (helloWorld 30 100).cy ∧
       (helloWorld 30 100).cy < (helloWorld 30 100).rowoff + (helloWorld 30 100).screenrows →
       (editorScroll (helloWorld 30 100)).rowoff = (helloWorld 30 100).rowoff) ∧
     ((helloWorld 30 100).coloff ≤ (helloWorld 30 100).cx ∧
       (helloWorld 30 100).cx < (helloWorld 30 100).coloff +
         ((helloWorld 30 100).screencols - editorLineNumberWidth (helloWorld 30 100)) →
       (editorScroll (helloWorld 30 100)).coloff = (helloWorld 30 100).coloff)) :=
  ⟨by decide, by decide, by decide, by decide, by decide, by decide,
    C14_editorScroll_bounds (helloWorld 30 100) (by decide) (by decide) (by decide)
      (by decide) (by decide) (by decide)⟩

/-! ## Row insertion -/

theorem getElem?_take_cons_drop (rows : List erow) (s : erow) (n i : Nat)
    (h : n ≤ rows.length) :
    (rows.take n ++ s :: rows.drop n)[i]? =
      if i < n then rows[i]? else if i = n then some s else rows[i - 1]? := by
  by_cases h1 : i < n
  · rw [if_pos h1, List.getElem?_append_left (by simp; omega), List.getElem?_take, if_pos h1]
  · rw [if_neg h1, List.getElem?_append_right (by simp; omega)]
    have hl : (rows.take n).length = n := by simp; omega
    rw [hl]
    by_cases h2 : i = n
    · subst h2
      simp
    · rw [if_neg h2]
      obtain ⟨k, hk⟩ : ∃ k, i - n = k + 1 := ⟨i - n - 1, by omega⟩
      rw [hk, List.getElem?_cons_succ, List.getElem?_drop]
      congr 1
      omega

/-- Claim C18: for an index `0 <= at <= numrows`, `editorInsertRow` gives the rows
`rows[0 .. at) ++ [content] ++ rows[at .. numrows)` (the rows before `at` keep their index,
row `at` is the content, every later row has moved down by one) and `numrows` grows by one;
for `at < 0` or `at > numrows` the state is unchanged. -/
theorem C18_editorInsertRow (E : editorConfig) (at_ : Int) (s : List UInt8) :
    (0 ≤ at_ ∧ at_ ≤ numrows E →
      (editorInsertRow at_ s E).row = E.row.take at_.toNat ++ [s] ++ E.row.drop at_.toNat ∧
      numrows (editorInsertRow at_ s E) = numrows E + 1 ∧
      ∀ i : Nat, (editorInsertRow at_ s E).row[i]? =
        if i < at_.toNat then E.row[i]? else if i = at_.toNat then some s
        else E.row[i - 1]?) ∧
    (at_ < 0 ∨ at_ > numrows E → editorInsertRow at_ s E = E) := by
  constructor
  · rintro ⟨h0, h1⟩
    unfold numrows at h1
    obtain ⟨n, rfl⟩ : ∃ n : Nat, at_ = n := ⟨at_.toNat, by omega⟩
    rw [editorInsertRow_natCast E n s (by omega)]
    refine ⟨by simp, ?_, fun i => ?_⟩
    · simp [numrows]
      omega
    · simp only [Int.toNat_ofNat]
      exact getElem?_take_cons_drop E.row s n i (by omega)
  · intro h
    unfold editorInsertRow
    rw [if_pos h]

theorem C18_witness :
    (0 ≤ (1 : Int) ∧ (1 : Int) ≤ numrows (helloWorld 0 0)) ∧
    (editorInsertRow 1 [97] (helloWorld 0 0)).row
      = [[104, 101, 108, 108, 111], [97], [119, 111, 114, 108, 100]] ∧
    ((3 : Int) < 0 ∨ (3 : Int) > numrows (helloWorld 0 0)) ∧
    editorInsertRow 3 [97] (helloWorld 0 0) = helloWorld 0 0 :=
  ⟨by decide,
    ((C18_editorInsertRow (helloWorld 0 0) 1 [97]).1 (by decide)).1,
    by decide,
    (C18_editorInsertRow (helloWorld 0 0) 3 [97]).2 (by decide)⟩

/-! ## Rendering -/

theorem drawRow_selected_query (fuel : Nat) (E : editorConfig) (y : Int)
    (q : Option (List UInt8)) (hsel : E.selecting = true)
    (hrange : (selRange E).1 ≤ y + E.rowoff ∧ y + E.rowoff ≤ (selRange E).2.2.1) :
    drawRow fuel { E with highlight_query := q } y
      = drawRow fuel { E with highlight_query := none } y := by
  have hR : ∀ q : Option (List UInt8), selRange { E with highlight_query := q } = selRange E :=
    fun _ => rfl
  have hW : ∀ q : Option (List UInt8),
      editorLineNumberWidth { E with highlight_query := q } = editorLineNumberWidth E :=
    fun _ => rfl
  unfold drawRow drawRowText
  simp only [hR, hW, numrows, rowAt]
  generalize selRange E = R at hrange
  obtain ⟨sy, sx, ey, ex⟩ := R
  simp only at hrange
  simp only [hsel, hrange, ge_iff_le, and_self, decide_True, Bool.and_self, if_true]

/-- Claim C15: selection takes precedence over search highlighting.  For a screen line whose
document row `y + rowoff` lies in `[start_y, end_y]` of an active selection, the bytes that
`editorDrawRows` appends for the line are the same for every two values of
`highlight_query` (a string or none). -/
theorem C15_selection_overrides_search (fuel : Nat) (E : editorConfig) (y : Int)
    (q1 q2 : Option (List UInt8)) (hsel : E.selecting = true)
    (hrange : (selRange E).1 ≤ y + E.rowoff ∧ y + E.rowoff ≤ (selRange E).2.2.1) :
    drawRow fuel { E with highlight_query := q1 } y
      = drawRow fuel { E with highlight_query := q2 } y := by
  rw [drawRow_selected_query fuel E y q1 hsel hrange,
    drawRow_selected_query fuel E y q2 hsel hrange]

theorem C15_witness :
    (selected 0 1 1 3).selecting = true ∧
    ((selRange (selected 0 1 1 3)).1 ≤ 0 + (selected 0 1 1 3).rowoff ∧
      0 + (selected 0 1 1 3).rowoff ≤ (selRange (selected 0 1 1 3)).2.2.1) ∧
    drawRow 10 { selected 0 1 1 3 with highlight_query := some [108] } 0
      = drawRow 10 { selected 0 1 1 3 with highlight_query := none } 0 :=
  ⟨by decide, by decide,
    C15_selection_overrides_search 10 (selected 0 1 1 3) 0 (some [108]) none (by decide)
      (by decide)⟩

theorem columns_append (row : erow) (a b c : Int) (hab : a ≤ b) (hbc : b ≤ c) :
    columns row a b ++ columns row b c = columns row a c := by
  unfold columns
  have h1 : List.take b.toNat row = List.take b.toNat (List.take c.toNat row) := by
    rw [List.take_take, Nat.min_eq_left (by omega)]
  rw [h1]
  generalize List.take c.toNat row = L
  by_cases hlen : a.toNat ≤ (List.take b.toNat L).length
  · rw [← List.drop_append_of_le_length hlen, List.take_append_drop]
  · have hL : L.length < a.toNat := by
      rw [List.length_take] at hlen
      omega
    rw [List.drop_eq_nil_of_le (by rw [List.length_take]; omega),
      List.drop_eq_nil_of_le (by omega), List.drop_eq_nil_of_le (by omega)]
    rfl

theorem find?_range'_leftmost (P : Nat → Bool) (n pos i : Nat) (hi : pos ≤ i)
    (hin : i < pos + n) (hP : P i = true) (hmin : ∀ j, pos ≤ j → j < i → P j = false) :
    (List.range' pos n).find? P = some i := by
  induction n generalizing pos with
  | zero => omega
  | succ n ih =>
    rw [List.range'_succ, List.find?_cons]
    by_cases hpi : pos = i
    · subst hpi
      rw [hP]
    · rw [hmin pos (le_refl _) (by omega)]
      exact ih (pos + 1) (by omega) (by omega) (fun j h1 h2 => hmin j (by omega) h2)

theorem find?_range'_none (P : Nat → Bool) (n pos : Nat)
    (h : ∀ j, pos ≤ j → j < pos + n → P j = false) :
    (List.range' pos n).find? P = none := by
  rw [List.find?_eq_none]
  intro x hx
  rw [List.mem_range'_1] at hx
  rw [h x hx.1 hx.2]
  simp

theorem occursAt_drop (row q : List UInt8) (pos j : Nat) :
    occursAt (row.drop pos) q j ↔ occursAt row q (pos + j) := by
  unfold occursAt
  rw [List.drop_drop]

theorem nextOccurrence_of_some (row q : List UInt8) (pos stop off : Nat)
    (h : strcasestr_impl (row.drop pos) q = some off) :
    nextOccurrence row q pos stop = if pos + off < stop then some (pos + off) else none := by
  obtain ⟨h1, h2⟩ := strcasestr_impl_eq_some _ _ _ h
  unfold nextOccurrence
  split
  · apply find?_range'_leftmost _ _ _ _ (by omega) (by omega)
    · exact decide_eq_true ((occursAt_drop row q pos off).mp h1)
    · intro j hj1 hj2
      apply decide_eq_false
      intro hocc
      have : occursAt (row.drop pos) q (j - pos) := by
        rw [occursAt_drop]
        have e : pos + (j - pos) = j := by omega
        rwa [e]
      exact h2 (j - pos) (by omega) this
  · apply find?_range'_none
    intro j hj1 hj2
    apply decide_eq_false
    intro hocc
    have : occursAt (row.drop pos) q (j - pos) := by
      rw [occursAt_drop]
      have e : pos + (j - pos) = j := by omega
      rwa [e]
    exact h2 (j - pos) (by omega) this

theorem nextOccurrence_of_none (row q : List UInt8) (pos stop : Nat)
    (h : strcasestr_impl (row.drop pos) q = none) :
    nextOccurrence row q pos stop = none := by
  unfold nextOccurrence
  apply find?_range'_none
  intro j hj1 _
  apply decide_eq_false
  intro hocc
  have : occursAt (row.drop pos) q (j - pos) := by
    rw [occursAt_drop]
    have e : pos + (j - pos) = j := by omega
    rwa [e]
  exact strcasestr_impl_eq_none _ _ h (j - pos) this

theorem nextOccurrence_bounds (row q : List UInt8) (pos stop col : Nat)
    (h : nextOccurrence row q pos stop = some col) : pos ≤ col ∧ col < stop := by
  unfold nextOccurrence at h
  have hmem := List.mem_of_find?_eq_some h
  rw [List.mem_range'_1] at hmem
  omega

theorem searchSpansFrom_fuel (row q : List UInt8) (stop : Nat) (hq : q ≠ [])
    (f1 f2 pos : Nat) (h1 : stop - pos < f1) (h2 : stop - pos < f2) :
    searchSpansFrom row q stop f1 pos = searchSpansFrom row q stop f2 pos := by
  have hlen : 0 < q.length := List.length_pos.mpr hq
  induction f1 generalizing f2 pos with
  | zero => omega
  | succ f1 ih =>
    cases f2 with
    | zero => omega
    | succ f2 =>
      unfold searchSpansFrom
      by_cases hps : pos < stop
      · rw [if_pos hps, if_pos hps]
        cases hno : nextOccurrence row q pos stop with
        | none => rfl
        | some col =>
          obtain ⟨hb1, hb2⟩ := nextOccurrence_bounds row q pos stop col hno
          simp only
          rw [ih f2 (col + q.length) (by omega) (by omega)]
      · rw [if_neg hps, if_neg hps]

theorem searchLoop_eq (row q : List UInt8) (stop : Nat) (hq : q ≠ [])
    (hnul : (0 : UInt8) ∉ row) (fuel pos : Nat) (ab : abuf) (h : stop - pos < fuel) :
    searchLoop row q (stop : Int) fuel pos ab
      = some (ab ++ renderSpans (searchSpansFrom row q stop fuel pos)) := by
  have hlen : 0 < q.length := List.length_pos.mpr hq
  induction fuel generalizing pos ab with
  | zero => omega
  | succ fuel ih =>
    unfold searchLoop searchSpansFrom
    by_cases hps : pos < stop
    · rw [if_pos (by omega), if_pos hps]
      have hdrop : (0 : UInt8) ∉ row.drop pos := fun hm => hnul (List.mem_of_mem_drop hm)
      rw [cstring_eq_self _ hdrop]
      cases hs : strcasestr_impl (row.drop pos) q with
      | none =>
        rw [nextOccurrence_of_none row q pos stop hs]
        simp [renderSpans, renderSpan, abAppend]
      | some off =>
        rw [nextOccurrence_of_some row q pos stop off hs]
        simp only
        by_cases hm : pos + off < stop
        · rw [if_pos (by omega), if_pos hm]
          simp only
          rw [ih _ _ (by omega)]
          have e1 : ((pos + off : Nat) : Int)
              + (if ((pos + off : Nat) : Int) + (q.length : Int) > (stop : Int)
                  then (stop : Int) - ((pos + off : Nat) : Int) else (q.length : Int))
              = ((min (pos + off + q.length) stop : Nat) : Int) := by
            split <;> omega
          rw [e1]
          simp [renderSpans, renderSpan, abAppend]
        · rw [if_neg (by omega), if_neg hm]
          simp [renderSpans, renderSpan, abAppend]
    · rw [if_neg (by omega), if_neg hps]
      simp [renderSpans]

theorem columns_eq_nil (row : erow) (a b : Int) (h : b ≤ a) : columns row a b = [] := by
  unfold columns
  exact List.drop_eq_nil_of_le (by rw [List.length_take]; omega)

theorem searchSpansFrom_texts (row q : List UInt8) (stop : Nat) (hq : q ≠ [])
    (fuel pos : Nat) (h : stop - pos < fuel) :
    ((searchSpansFrom row q stop fuel pos).map Prod.snd).flatten
      = columns row (pos : Int) (stop : Int) := by
  have hlen : 0 < q.length := List.length_pos.mpr hq
  induction fuel generalizing pos with
  | zero => omega
  | succ fuel ih =>
    unfold searchSpansFrom
    by_cases hps : pos < stop
    · rw [if_pos hps]
      cases hno : nextOccurrence row q pos stop with
      | none => simp
      | some col =>
        obtain ⟨hb1, hb2⟩ := nextOccurrence_bounds row q pos stop col hno
        simp only [List.map_cons, List.flatten_cons]
        rw [ih (col + q.length) (by omega)]
        by_cases hend : col + q.length ≤ stop
        · rw [min_eq_left (by omega : (col : Int) + (q.length : Int) ≤ (stop : Int))]
          have e : ((col + q.length : Nat) : Int) = (col : Int) + (q.length : Int) := by
            push_cast; rfl
          rw [e, columns_append row _ _ _ (by omega) (by omega),
            columns_append row _ _ _ (by omega) (by omega)]
        · rw [min_eq_right (by omega : (stop : Int) ≤ (col : Int) + (q.length : Int)),
            columns_eq_nil row _ _ (by omega : (stop : Int) ≤ ((col + q.length : Nat) : Int)),
            List.append_nil, columns_append row _ _ _ (by omega) (by omega)]
    · rw [if_neg hps, columns_eq_nil row _ _ (by omega)]
      rfl

theorem searchSpansFrom_alternate (row q : List UInt8) (stop fuel pos : Nat) :
    List.Chain' (fun a b : Style × List UInt8 => a.1 ≠ b.1)
        (searchSpansFrom row q stop fuel pos) ∧
    ∀ x ∈ (searchSpansFrom row q stop fuel pos).head?, x.1 = Style.normal := by
  induction fuel generalizing pos with
  | zero => simp [searchSpansFrom]
  | succ fuel ih =>
    unfold searchSpansFrom
    split
    · cases nextOccurrence row q pos stop with
      | none => simp
      | some col =>
        obtain ⟨h1, h2⟩ := ih (col + q.length)
        simp only
        refine ⟨?_, by simp⟩
        rw [List.chain'_cons, List.chain'_cons']
        refine ⟨by simp, fun y hy => ?_, h1⟩
        rw [h2 y hy]
        simp
    · simp

/-- Claim C17: for a row that is not in a selection and holds no NUL byte, with
`0 <= coloff <= row.size`, a text area that is not of negative width and a non-empty
`highlight_query`, the search loop of `editorDrawRows` ends (within `visible_len + 1`
iterations) and appends the spans of `searchSpans` for the visible slice
`[coloff, coloff + visible_len)`: normal and inverted spans in alternation whose texts
together are the slice, each inverted span being the leftmost occurrence of the query,
letter case ignored, at or behind the end of the one before it that starts inside the slice,
cut off at the right edge of the slice. -/
theorem C17_search_overlay (fuel : Nat) (E : editorConfig) (filerow : Int) (row : erow)
    (ab : abuf) (query : List UInt8)
    (hnot : ¬ (E.selecting = true ∧
      (selRange E).1 ≤ filerow ∧ filerow ≤ (selRange E).2.2.1))
    (hquery : E.highlight_query = some query) (hq : query ≠ [])
    (hnul : (0 : UInt8) ∉ row)
    (hco0 : 0 ≤ E.coloff) (hco : E.coloff ≤ rowSize row)
    (hw : 0 ≤ E.screencols - editorLineNumberWidth E)
    (hfuel : (visibleLen E row).toNat < fuel) :
    drawRowText fuel E filerow row ab
      = some (ab ++ renderSpans
          (searchSpans row query E.coloff.toNat (E.coloff + visibleLen E row).toNat)) ∧
    ((searchSpans row query E.coloff.toNat (E.coloff + visibleLen E row).toNat).map
        Prod.snd).flatten
      = columns row E.coloff (E.coloff + visibleLen E row) ∧
    List.Chain' (fun a b : Style × List UInt8 => a.1 ≠ b.1)
      (searchSpans row query E.coloff.toNat (E.coloff + visibleLen E row).toNat) := by
  have hvl0 : 0 ≤ visibleLen E row := by unfold visibleLen; omega
  have hstop : (((E.coloff + visibleLen E row).toNat : Nat) : Int)
      = E.coloff + visibleLen E row := by omega
  refine ⟨?_, ?_, (searchSpansFrom_alternate _ _ _ _ _).1⟩
  · unfold drawRowText
    generalize hR : selRange E = R at hnot
    obtain ⟨sy, sx, ey, ex⟩ := R
    simp only at hnot
    have hsel : (E.selecting && decide (filerow ≥ sy ∧ filerow ≤ ey)) = false := by
      rw [Bool.and_eq_false_iff]
      by_cases hs : E.selecting = true
      · right
        exact decide_eq_false (fun hr => hnot ⟨hs, hr⟩)
      · left
        simpa using hs
    have hvl : (if (if rowSize row - E.coloff < 0 then 0 else rowSize row - E.coloff)
          > E.screencols - editorLineNumberWidth E then E.screencols - editorLineNumberWidth E
        else (if rowSize row - E.coloff < 0 then 0 else rowSize row - E.coloff))
        = visibleLen E row := by
      unfold visibleLen
      split_ifs <;> omega
    simp only [hsel, hquery, hvl, Bool.false_eq_true, if_false, Bool.not_false, Bool.true_and,
      Option.isNone_some, false_and, ne_eq, not_true_eq_false]
    have hloop := searchLoop_eq row query (E.coloff + visibleLen E row).toNat hq hnul fuel
      E.coloff.toNat ab (by omega)
    rw [hstop] at hloop
    rw [if_neg (by omega), hloop]
    unfold searchSpans
    rw [searchSpansFrom_fuel row query _ hq fuel
      ((E.coloff + visibleLen E row).toNat - E.coloff.toNat + 1) _ (by omega) (by omega)]
  · unfold searchSpans
    rw [searchSpansFrom_texts row query _ hq _ _ (by omega), hstop,
      Int.toNat_of_nonneg hco0]

theorem C17_witness :
    ¬ ((abcQuery).selecting = true ∧
      (selRange abcQuery).1 ≤ 0 ∧ 0 ≤ (selRange abcQuery).2.2.1) ∧
    abcQuery.highlight_query = some [98, 67] ∧ ([98, 67] : List UInt8) ≠ [] ∧
    (0 : UInt8) ∉ ([97, 98, 99, 65, 66, 67, 97, 98, 99] : List UInt8) ∧
    0 ≤ abcQuery.coloff ∧ abcQuery.coloff ≤ rowSize [97, 98, 99, 65, 66, 67, 97, 98, 99] ∧
    0 ≤ abcQuery.screencols - editorLineNumberWidth abcQuery ∧
    (visibleLen abcQuery [97, 98, 99, 65, 66, 67, 97, 98, 99]).toNat < 6 ∧
    (drawRowText 6 abcQuery 0 [97, 98, 99, 65, 66, 67, 97, 98, 99] []
      = some ([] ++ renderSpans
          (searchSpans [97, 98, 99, 65, 66, 67, 97, 98, 99] [98, 67] abcQuery.coloff.toNat
            (abcQuery.coloff
              + visibleLen abcQuery [97, 98, 99, 65, 66, 67, 97, 98, 99]).toNat)) ∧
    ((searchSpans [97, 98, 99, 65, 66, 67, 97, 98, 99] [98, 67] abcQuery.coloff.toNat
        (abcQuery.coloff + visibleLen abcQuery [97, 98, 99, 65, 66, 67, 97, 98, 99]).toNat).map
        Prod.snd).flatten
      = columns [97, 98, 99, 65, 66, 67, 97, 98, 99] abcQuery.coloff
          (abcQuery.coloff + visibleLen abcQuery [97, 98, 99, 65, 66, 67, 97, 98, 99]) ∧
    List.Chain' (fun a b : Style × List UInt8 => a.1 ≠ b.1)
      (searchSpans [97, 98, 99, 65, 66, 67, 97, 98, 99] [98, 67] abcQuery.coloff.toNat
        (abcQuery.coloff
          + visibleLen abcQuery [97, 98, 99, 65, 66, 67, 97, 98, 99]).toNat)) :=
  ⟨by decide, by decide, by decide, by decide, by decide, by decide, by decide, by decide,
    C17_search_overlay 6 abcQuery 0 [97, 98, 99, 65, 66, 67, 97, 98, 99] [] [98, 67]
      (by decide) (by decide) (by decide) (by decide) (by decide) (by decide) (by decide)
      (by decide)⟩

/-! ## The empty query -/

theorem strcasestr_impl_nil (haystack : List UInt8) : strcasestr_impl haystack [] = some 0 := by
  cases haystack <;> rfl

/-- With the empty query every iteration of the search loop finds a match of length 0 at
`current` and leaves `current` where it was: no number of iterations ends the loop. -/
theorem searchLoop_empty_query (row : erow) (stop : Int) (fuel pos : Nat) (ab : abuf)
    (h : (pos : Int) < stop) : searchLoop row [] stop fuel pos ab = none := by
  induction fuel generalizing ab with
  | zero => rfl
  | succ fuel ih =>
    unfold searchLoop
    rw [if_pos h, strcasestr_impl_nil]
    simp only [Nat.add_zero, List.length_nil]
    rw [if_pos h]
    exact ih _

theorem drawRowText_empty_query (fuel : Nat) (E : editorConfig) (filerow : Int) (row : erow)
    (ab : abuf)
    (hnot : ¬ (E.selecting = true ∧
      (selRange E).1 ≤ filerow ∧ filerow ≤ (selRange E).2.2.1))
    (hquery : E.highlight_query = some [])
    (hco0 : 0 ≤ E.coloff) (hco : E.coloff < rowSize row)
    (hw : 0 < E.screencols - editorLineNumberWidth E) :
    drawRowText fuel E filerow row ab = none := by
  unfold drawRowText
  generalize hR : selRange E = R at hnot
  obtain ⟨sy, sx, ey, ex⟩ := R
  simp only at hnot
  have hsel : (E.selecting && decide (filerow ≥ sy ∧ filerow ≤ ey)) = false := by
    rw [Bool.and_eq_false_iff]
    by_cases hs : E.selecting = true
    · right
      exact decide_eq_false (fun hr => hnot ⟨hs, hr⟩)
    · left
      simpa using hs
  generalize hvl : (if (if rowSize row - E.coloff < 0 then 0 else rowSize row - E.coloff)
        > E.screencols - editorLineNumberWidth E then E.screencols - editorLineNumberWidth E
      else (if rowSize row - E.coloff < 0 then 0 else rowSize row - E.coloff)) = vl
  have hvl0 : 0 < vl := by
    rw [← hvl]
    split_ifs <;> omega
  simp only [hsel, hquery, Bool.false_eq_true, if_false, Bool.not_false, Bool.true_and,
    Option.isNone_some, false_and, ne_eq, not_true_eq_false]
  rw [if_neg (by omega)]
  exact searchLoop_empty_query row _ fuel _ ab (by omega)

theorem drawRow_empty_query (fuel : Nat) (E : editorConfig) (y : Int) (row : erow)
    (hrow : rowAt E (y + E.rowoff) = some row)
    (hnot : ¬ (E.selecting = true ∧
      (selRange E).1 ≤ y + E.rowoff ∧ y + E.rowoff ≤ (selRange E).2.2.1))
    (hquery : E.highlight_query = some [])
    (hco0 : 0 ≤ E.coloff) (hco : E.coloff < rowSize row)
    (hw : 0 < E.screencols - editorLineNumberWidth E) :
    drawRow fuel E y = none := by
  obtain ⟨n, hn, _, hr⟩ := rowAt_some E _ row hrow
  have hlt := lt_length_of_getElem? hr
  unfold drawRow
  simp only
  rw [if_neg (by unfold numrows; omega), hrow]
  simp only
  rw [drawRowText_empty_query fuel E _ row _ hnot hquery hco0 hco hw]
  rfl

/-- Claim C22 at a failing input.  On the document `["abcABCabc"]`, pressing Backspace as
the first key of a search session makes `editorFindCallback` install the empty string as
`highlight_query`; when the screen is drawn in that state, the search-highlight loop of
`editorDrawRows` finds a match of length 0 at `current` in every iteration and never
advances: for no number of iterations does drawing the first screen line end, and so
`editorDrawRows` does not return either. -/
theorem C22_empty_query_loop_never_ends :
    (editorFindCallback [] BACKSPACE findInit abcDocument).map
      (fun r => (r.2.highlight_query, r.2.row, r.2.coloff))
      = some (emptyQuery.highlight_query, emptyQuery.row, emptyQuery.coloff) ∧
    emptyQuery.highlight_query = some [] ∧
    (∀ fuel : Nat, drawRow fuel emptyQuery 0 = none) ∧
    (∀ fuel n : Nat, editorDrawRows fuel emptyQuery (n + 1) 0 = none) := by
  have h : ∀ fuel : Nat, drawRow fuel emptyQuery 0 = none := fun fuel =>
    drawRow_empty_query fuel emptyQuery 0 [97, 98, 99, 65, 66, 67, 97, 98, 99]
      (by decide) (by decide) (by decide) (by decide) (by decide) (by decide)
  refine ⟨by decide, by decide, h, fun fuel n => ?_⟩
  unfold editorDrawRows
  rw [h fuel]

/-! ## The clipboard block -/

theorem rowAt_mem (E : editorConfig) (i : Int) (row : erow) (h : rowAt E i = some row) :
    row ∈ E.row := by
  obtain ⟨n, _, _, hr⟩ := rowAt_some E i row h
  obtain ⟨hlt, heq⟩ := List.getElem?_eq_some.mp hr
  exact heq ▸ List.getElem_mem ..

theorem selInterior_no_nul (E : editorConfig) (hnul : ∀ row ∈ E.row, (0 : UInt8) ∉ row)
    (n : Nat) (i : Int) (ab ab' : abuf) (hab : (0 : UInt8) ∉ ab)
    (h : selInterior E i n ab = some ab') : (0 : UInt8) ∉ ab' := by
  induction n generalizing i ab with
  | zero =>
    simp only [selInterior, Option.some.injEq] at h
    exact h ▸ hab
  | succ n ih =>
    rw [selInterior] at h
    cases hr : rowAt E i with
    | none => rw [hr] at h; simp at h
    | some row =>
      rw [hr] at h
      simp only at h
      refine ih (i + 1) _ ?_ h
      have := hnul row (rowAt_mem E i row hr)
      simp only [abAppend, List.mem_append, List.mem_singleton, not_or]
      exact ⟨⟨hab, this⟩, by decide⟩

/-- The block returned by `editorGetSelection` holds the extracted bytes and nothing behind
them: when no row holds a NUL byte, the block holds no NUL byte. -/
theorem editorGetSelection_no_nul (E : editorConfig) (block : List UInt8)
    (hnul : ∀ row ∈ E.row, (0 : UInt8) ∉ row)
    (h : editorGetSelection E = some (some block)) : (0 : UInt8) ∉ block := by
  unfold editorGetSelection at h
  split at h
  · simp at h
  generalize selRange E = R at h
  obtain ⟨sy, sx, ey, ex⟩ := R
  simp only at h
  split at h
  · simp at h
  split at h
  · split at h
    · simp at h
    · rename_i row hrow
      have hrn := hnul row (rowAt_mem E _ row hrow)
      split at h
      · simp at h
      split at h
      · simp at h
      simp only [abAppend, List.nil_append, Option.some.injEq] at h
      subst h
      exact fun hm => hrn (List.mem_of_mem_drop (List.mem_of_mem_take hm))
  · split at h
    · rename_i row last hrow hlast
      have hrn := hnul row (rowAt_mem E _ row hrow)
      have hln := hnul last (rowAt_mem E _ last hlast)
      split at h
      · simp at h
      split at h
      · simp at h
      · rename_i ab' hint
        have hab' : (0 : UInt8) ∉ ab' := by
          refine selInterior_no_nul E hnul _ _ _ ab' ?_ hint
          simp only [abAppend, List.mem_append, List.mem_singleton, not_or]
          refine ⟨?_, by decide⟩
          split
          · simp only [List.nil_append]
            exact fun hm => hrn (List.mem_of_mem_drop hm)
          · simp
        split at h
        · simp only [abAppend, Option.some.injEq] at h
          subst h
          simp only [List.mem_append, not_or]
          exact ⟨hab', fun hm => hln (List.mem_of_mem_take hm)⟩
        · simp only [Option.some.injEq] at h
          exact h ▸ hab'
    · simp at h

theorem editorDeleteSelection_clipboard (E E' : editorConfig)
    (h : editorDeleteSelection E = some E') : E'.clipboard = E.clipboard := by
  unfold editorDeleteSelection at h
  split at h
  · simp only [Option.some.injEq] at h
    rw [← h]
  generalize selRange E = R at h
  obtain ⟨sy, sx, ey, ex⟩ := R
  simp only at h
  split at h
  · simp only [Option.some.injEq] at h
    rw [← h]
  split at h
  · split at h
    · simp at h
    · split at h
      · simp only [Option.some.injEq] at h
        rw [← h]
      split at h
      · simp at h
      · simp only [Option.some.injEq] at h
        rw [← h]
        rfl
  · split at h
    · split at h
      · simp at h
      split at h
      · simp at h
      · simp only [Option.some.injEq] at h
        rw [← h]
        simp only [delRowLoop_clipboard, setRow]
    · simp at h

/-- A paste behind a cut or a copy of a selection runs the paste loop on the block of
`editorGetSelection`, which has no NUL byte for the loop to stop at. -/
theorem keypressPaste_selection_block (E : editorConfig) (block : List UInt8)
    (hblock : (0 : UInt8) ∉ block) (hclip : E.clipboard = some block) :
    keypressPaste E = none := by
  unfold keypressPaste
  cases hd : (if E.selecting = true then editorDeleteSelection E else some E) with
  | none => rfl
  | some E1 =>
    have hc : E1.clipboard = some block := by
      split at hd
      · rw [editorDeleteSelection_clipboard E E1 hd, hclip]
      · simp only [Option.some.injEq] at hd
        rw [← hd, hclip]
    simp only [hc]
    rw [pasteLoop_eq_none_of_no_nul block E1 hblock]
    rfl

/-- For every state whose rows hold no NUL byte and whose selection yields some bytes, cut
followed by paste has no defined result: the paste loop reads past the clipboard block. -/
theorem keypressCut_then_paste (E : editorConfig) (block : List UInt8)
    (hnul : ∀ row ∈ E.row, (0 : UInt8) ∉ row) (hsel : E.selecting = true)
    (hget : editorGetSelection E = some (some block)) :
    (keypressCut E).bind keypressPaste = none := by
  have hblock := editorGetSelection_no_nul E block hnul hget
  unfold keypressCut
  rw [if_pos hsel, hget]
  simp only
  cases hd : editorDeleteSelection { E with clipboard := some block } with
  | none => rfl
  | some E1 =>
    have hc := editorDeleteSelection_clipboard _ E1 hd
    simp only [Option.map_some', Option.some_bind]
    exact keypressPaste_selection_block _ block hblock
      (by simp only [editorSetStatusMessage]; exact hc)

/-- Claim C23 at a failing input.  On `["hello", "world"]` with columns `[0, 3)` of row 0
selected, `editorGetSelection` returns a block of exactly the three bytes `"hel"`: its last
byte is `'l'`, it holds no NUL byte, and both copy and cut store that block as the
clipboard.  The paste loop run on it, from whatever state, reads the byte behind the block.
The copy of a line without a selection goes through `strdup` and does end in a NUL byte. -/
theorem C23_selection_clipboard_has_no_terminator :
    editorGetSelection (selected 0 0 0 3) = some (some [104, 101, 108]) ∧
    ([104, 101, 108] : List UInt8).getLast? ≠ some 0 ∧
    (0 : UInt8) ∉ ([104, 101, 108] : List UInt8) ∧
    (keypressCopy (selected 0 0 0 3)).map (fun E => E.clipboard)
      = some (some [104, 101, 108]) ∧
    (keypressCut (selected 0 0 0 3)).map (fun E => E.clipboard)
      = some (some [104, 101, 108]) ∧
    (∀ E : editorConfig, pasteLoop [104, 101, 108] E = none) ∧
    (keypressCopy (helloWorld 0 0)).map (fun E => E.clipboard)
      = some (some [104, 101, 108, 108, 111, 0]) :=
  ⟨by decide, by decide, by decide, by decide, by decide,
    fun E => pasteLoop_eq_none_of_no_nul _ E (by decide), by decide⟩

/-- Claim C21 at a failing input.  On `["hello", "world"]` with the selection from
(0, 1) to (1, 3), whose rows hold no newline, carriage return or NUL, cut stores the eight
bytes `"ello\nwor"` without a NUL behind them and leaves the document `["hld"]` with the
cursor at (0, 1); the paste that follows inserts those bytes and then reads the byte behind
the block, so cut followed by paste has no defined result.  Had the block ended in a NUL
byte, the same paste would restore `["hello", "world"]` with the cursor at (1, 3) and the
selection inactive. -/
theorem C21_cut_then_paste_reads_past_clipboard :
    (∀ row ∈ (selected 0 1 1 3).row,
      (10 : UInt8) ∉ row ∧ (13 : UInt8) ∉ row ∧ (0 : UInt8) ∉ row) ∧
    editorGetSelection (selected 0 1 1 3)
      = some (some [101, 108, 108, 111, 10, 119, 111, 114]) ∧
    (keypressCut (selected 0 1 1 3)).map (fun E => (E.row, E.cy, E.cx))
      = some ([[104, 108, 100]], 0, 1) ∧
    (keypressCut (selected 0 1 1 3)).map (fun E => (E.selecting, E.clipboard))
      = some (false, some [101, 108, 108, 111, 10, 119, 111, 114]) ∧
    (keypressCut (selected 0 1 1 3)).bind keypressPaste = none ∧
    ((keypressCut (selected 0 1 1 3)).bind
        (fun E => keypressPaste
          { E with clipboard := some [101, 108, 108, 111, 10, 119, 111, 114, 0] })).map
        (fun E => (E.row, E.cy, E.cx, E.selecting))
      = some ([[104, 101, 108, 108, 111], [119, 111, 114, 108, 100]], 1, 3, false) :=
  ⟨by decide, by decide, by decide, by decide,
    keypressCut_then_paste (selected 0 1 1 3) [101, 108, 108, 111, 10, 119, 111, 114]
      (by decide) (by decide) (by decide),
    by decide⟩

end Cilo
